import Mathlib

/-!
Shallow embedding of `scripts/pull_all_devices.py` (repository
gisma/mikrotik-burgwald): the incremental TTN-storage pull, the history
merge/dedup/sort, payload flattening and vendor normalization rules, and
the per-device paging loop with its HTTP-400 fallback ladder.

Modelling conventions:
* timestamps are UTC instants at second precision, modelled as `Nat`
  (the code formats cursors with `replace(microsecond=0)`, i.e. second
  granularity); an absent or unparseable timestamp is `none`;
* pandas cells are modelled by `Cell` (`nil` stands for NaN/NaT); a
  DataFrame is column-major, `Table := List (String × List Cell)`;
* the decoded payload is carried as structured JSON (`Json`); the code
  round-trips it through `json.dumps`/`json.loads`, which is the identity
  on the structured value, so `payload_json` cells hold the parsed value;
* one call of `_do_get_with_retries` is one scripted environment event
  (`Resp`): either a returned HTTP response (with its parsed NDJSON
  objects) or a raised network error after exhausted retries;
* `pandas.sort_values("received_at")` is modelled by a deterministic
  insertion sort with NaT ordered last (`na_position='last'`).
-/

namespace TTNPull

mutual

/-- JSON values as produced by `json.loads` on TTN storage bodies. -/
inductive Json where
  | null : Json
  | bool (b : Bool) : Json
  | num (q : ℚ) : Json
  | str (s : String) : Json
  | arr (elems : JsonArr) : Json
  | obj (fields : JsonObj) : Json
deriving DecidableEq, Repr

/-- A JSON array (spelled out so that decidable equality is derivable). -/
inductive JsonArr where
  | nil : JsonArr
  | cons (hd : Json) (tl : JsonArr) : JsonArr
deriving DecidableEq, Repr

/-- The field list of a JSON object. -/
inductive JsonObj where
  | nil : JsonObj
  | cons (key : String) (val : Json) (tl : JsonObj) : JsonObj
deriving DecidableEq, Repr

end

/-- The elements of a JSON array, as a list. -/
def JsonArr.toList : JsonArr → List Json
  | .nil => []
  | .cons hd tl => hd :: tl.toList

/-- The fields of a JSON object, as a list. -/
def JsonObj.toList : JsonObj → List (String × Json)
  | .nil => []
  | .cons k v tl => (k, v) :: tl.toList

/-- `d.get(key)` on a JSON object: the first binding of `key`, if any. -/
def JsonObj.get : JsonObj → String → Option Json
  | .nil, _ => none
  | .cons k v tl, key => if k == key then some v else tl.get key

/-- `bool(d)` for a JSON object: `true` iff it has at least one field. -/
def JsonObj.isNonEmpty : JsonObj → Bool
  | .nil => false
  | .cons _ _ _ => true

/-- A pandas cell: a number, a string, a boolean, NaN/NaT (`nil`), or an
embedded python object (list/dict) kept as JSON. -/
inductive Cell where
  | num (q : ℚ) : Cell
  | str (s : String) : Cell
  | bool (b : Bool) : Cell
  | nil : Cell
  | jsonV (j : Json) : Cell
deriving DecidableEq, Repr

/-- A DataFrame, column-major: column names in order, each with its cells. -/
abbrev Table := List (String × List Cell)

/-- First binding of `k` in an association list. -/
def assocGet {α : Type} (l : List (String × α)) (k : String) : Option α :=
  (l.find? (fun p => p.1 == k)).map Prod.snd

/-- `d[k] = v` with dict/pandas semantics: replace the first binding of `k`
in place, else append at the end. -/
def assocSet {α : Type} (l : List (String × α)) (k : String) (v : α) : List (String × α) :=
  match l with
  | [] => [(k, v)]
  | p :: rest => if p.1 == k then (k, v) :: rest else p :: assocSet rest k v

/-- Column names of a table, in order. -/
def colNames (df : Table) : List String := df.map Prod.fst

/-- Whether a column is present (`c in df.columns`). -/
def hasCol (df : Table) (c : String) : Bool := (colNames df).contains c

/-- The cells of column `c` (first matching column). -/
def getCol (df : Table) (c : String) : Option (List Cell) := assocGet df c

/-- `df[c] = col`. -/
def setCol (df : Table) (c : String) (col : List Cell) : Table := assocSet df c col

/-- `df.empty`: no columns, or every column has no rows. -/
def tableEmpty (df : Table) : Bool := df.isEmpty || df.all (fun p => p.2.isEmpty)

/-! ### Numeric coercion (`pd.to_numeric`) -/

/-- Parse a decimal literal the way `float()` / `pd.to_numeric` accepts
`"12"`, `"-3.5"`, `"+1."` or `".25"` (exponents are not modelled; none of
the claims depend on them). Returns `none` on anything else. -/
def strToRat? (s : String) : Option ℚ :=
  let t := s.trim
  let (sgn, u) : ℚ × String :=
    if t.startsWith "-" then (-1, t.drop 1)
    else if t.startsWith "+" then (1, t.drop 1) else (1, t)
  match u.split (fun c => c == '.') with
  | [ip] =>
    match ip.toNat? with
    | some n => some (sgn * n)
    | none => none
  | [ip, fp] =>
    if ip.isEmpty ∧ fp.isEmpty then none
    else
      let ipv : Option ℚ := if ip.isEmpty then some 0 else (ip.toNat?).map (fun n => (n : ℚ))
      let fpv : Option ℚ :=
        if fp.isEmpty then some 0
        else (fp.toNat?).map (fun n => (n : ℚ) / ((10 : ℚ) ^ fp.length))
      match ipv, fpv with
      | some a, some b => some (sgn * (a + b))
      | _, _ => none
  | _ => none

/-- One cell under `pd.to_numeric`: `some` converted cell on success
(`NaN` counts as success, staying `NaN`), `none` where python would raise. -/
def parseCell : Cell → Option Cell
  | .num q => some (.num q)
  | .bool b => some (.num (if b then 1 else 0))
  | .nil => some .nil
  | .str s => (strToRat? s).map .num
  | .jsonV _ => none

/-- `pd.to_numeric(col, errors="coerce")`: failures become NaN. -/
def coerceCell (c : Cell) : Cell := (parseCell c).getD .nil

/-- A cell that makes a column `object`-dtyped (strings and embedded
python objects; purely numeric/boolean columns are not object-dtyped). -/
def isObjCell : Cell → Bool
  | .str _ => true
  | .jsonV _ => true
  | _ => false

/-- All-or-nothing conversion of a column (`pd.to_numeric` semantics:
one failing cell fails the whole column). -/
def parseAll : List Cell → Option (List Cell)
  | [] => some []
  | c :: cs =>
    match parseCell c, parseAll cs with
    | some c2, some cs2 => some (c2 :: cs2)
    | _, _ => none

/-- `pd.to_numeric(col, errors="ignore")`: the converted column if every
cell converts, otherwise the column unchanged. -/
def toNumericIgnoreCol (col : List Cell) : List Cell :=
  match parseAll col with
  | some col2 => col2
  | none => col

/-- The generic numeric-casting pass of `normalize_all` (lines 449-451):
every `object`-dtype column except `device_id` goes through
`pd.to_numeric(..., errors="ignore")`. -/
def genericCast (df : Table) : Table :=
  df.map (fun p =>
    if p.1 == "device_id" then p
    else if p.2.any isObjCell then (p.1, toNumericIgnoreCol p.2) else p)

/-- `pd.to_numeric(df[src], errors="coerce")` over a whole column. -/
def coercedCol (df : Table) (src : String) : List Cell :=
  ((getCol df src).getD []).map coerceCell

/-- Division by `10.0` of an already-coerced numeric cell (NaN stays NaN). -/
def cellDiv10 : Cell → Cell
  | .num q => .num (q / 10)
  | _ => .nil

/-! ### Vendor normalization rules -/

/-- The shared shape of a vendor mapping rule: "if raw column `src` is
present and canonical column `dst` is absent, derive `dst` from `src`
via `v`" (used by the `for src, dst in [...]` loops of the source). -/
def ruleStep (v : Table → String → List Cell) (df : Table) (sd : String × String) : Table :=
  if hasCol df sd.1 ∧ ¬ hasCol df sd.2 then setCol df sd.2 (v df sd.1) else df

/-- The battery rule of `normalize_dds75` (lines 366-369): first present
source among `Bat`, `BAT`, `Bat_V` wins, only when `battery` is absent. -/
def dds75Battery (df : Table) : Table :=
  if hasCol df "battery" then df
  else
    match ["Bat", "BAT", "Bat_V"].find? (fun s => hasCol df s) with
    | some src => setCol df "battery" (coercedCol df src)
    | none => df

/-- The distance value: `pd.to_numeric(df[src], errors="coerce") / 10.0`. -/
def distVal (df : Table) (src : String) : List Cell := (coercedCol df src).map cellDiv10

/-- `normalize_dds75` (lines 365-380). -/
def normalize_dds75 (df : Table) : Table :=
  let df := dds75Battery df
  let df := [("Distance_mm", "distance_cm"), ("Distance", "distance_cm")].foldl
    (ruleStep distVal) df
  let df := ruleStep coercedCol df ("TempC_DS18B20", "temperature")
  [("Interrupt_flag", "interrupt_flag"), ("Sensor_flag", "sensor_flag")].foldl
    (ruleStep coercedCol) df

/-- The `src -> dst` mapping table of `normalize_pslb` (lines 386-394). -/
def pslbMapping : List (String × String) :=
  [("Water_deep_cm", "water_cm"), ("Water_pressure_kPa", "pressure_kpa"),
   ("Water_pressure_MPa", "pressure_mpa"), ("Differential_pressure_Pa", "diff_pressure_pa"),
   ("VDC_intput_V", "vdc_input_v"), ("IDC_intput_mA", "idc_input_ma"),
   ("Probe_mod", "probe_mode")]

/-- The lowercase-copy pairs of `normalize_pslb` (lines 398-400):
`df[s.lower()] = df[s]`, with `s.lower()` spelled out. -/
def pslbLowerPairs : List (String × String) :=
  [("IN1_pin_level", "in1_pin_level"), ("IN2_pin_level", "in2_pin_level"),
   ("Exti_pin_level", "exti_pin_level"), ("Exti_status", "exti_status")]

/-- The raw copy of a column (`df[s]`, no numeric conversion). -/
def copiedCol (df : Table) (src : String) : List Cell := (getCol df src).getD []

/-- `normalize_pslb` (lines 382-401). -/
def normalize_pslb (df : Table) : Table :=
  let df := [("Bat_V", "battery"), ("BAT", "battery")].foldl (ruleStep coercedCol) df
  let df := pslbMapping.foldl (ruleStep coercedCol) df
  pslbLowerPairs.foldl (ruleStep copiedCol) df

/-- `float(v)` on a JSON value: numbers, numeric strings and booleans
convert; everything else raises (is `none`). -/
def floatOfJson : Json → Option ℚ
  | .num q => some q
  | .str s => strToRat? s
  | .bool b => some (if b then 1 else 0)
  | _ => none

/-- `float(c)` on a cell already stored in `by_type`. -/
def cellFloat : Cell → Option ℚ
  | .num q => some q
  | .str s => strToRat? s
  | .bool b => some (if b then 1 else 0)
  | _ => none

/-- A JSON leaf as a pandas cell. -/
def ofJsonCell : Json → Cell
  | .null => .nil
  | .bool b => .bool b
  | .num q => .num q
  | .str s => .str s
  | j => .jsonV j

/-- `o.get("messages") or []`, usable only when it is an array. -/
def msgsOf (o : Json) : List Json :=
  match o with
  | .obj fs =>
    match fs.get "messages" with
    | some (.arr xs) => xs.toList
    | _ => []
  | _ => []

/-- Flattening of the `messages` list: inner lists are spliced, inner
dicts kept, anything else dropped. -/
def flattenMsgs (xs : List Json) : List Json :=
  xs.foldr
    (fun m acc =>
      match m with
      | .arr ys => ys.toList ++ acc
      | .obj _ => m :: acc
      | _ => acc)
    []

/-- One `by_type` update: record the (float-converted where possible)
`measurementValue` under the entry's `type`, last write winning. -/
def btStep (acc : List (String × Cell)) (m : Json) : List (String × Cell) :=
  match m with
  | .obj fs =>
    match fs.get "type" with
    | some (.str t) =>
      let v := (fs.get "measurementValue").getD .null
      let cv := match floatOfJson v with
        | some q => Cell.num q
        | none => ofJsonCell v
      assocSet acc t cv
    | _ => acc
  | _ => acc

/-- The `by_type` dict of `normalize_sensecap_messages`: per `type` label,
the last-seen `measurementValue` (converted with `float` where possible,
kept as-is otherwise). -/
def byType (ms : List Json) : List (String × Cell) :=
  ms.foldl btStep []

/-- One optional canonical-metric entry from `by_type`. -/
def pickMetric (bt : List (String × Cell)) (label name : String) : List (String × Cell) :=
  match assocGet bt label with
  | some v => [(name, v)]
  | none => []

/-- The `Barometric Pressure` entry with its pascals/hectopascals
rescaling (lines 432-438). -/
def pressureMetric (bt : List (String × Cell)) : List (String × Cell) :=
  match (assocGet bt "Barometric Pressure").bind cellFloat with
  | some p => [("pressure_hpa", Cell.num (if p > 5000 then p / 100 else p))]
  | none => []

/-- The canonical-metric dict `res` built from `by_type`, in the source's
insertion order (lines 425-438). -/
def sensecapRes (bt : List (String × Cell)) : List (String × Cell) :=
  pickMetric bt "Air Temperature" "temperature" ++ pickMetric bt "Air Humidity" "humidity" ++
  pickMetric bt "Light Intensity" "illumination" ++ pickMetric bt "UV Index" "uv_index" ++
  pickMetric bt "Wind Speed" "wind_speed" ++
  pickMetric bt "Wind Direction Sensor" "wind_dir" ++
  pickMetric bt "Rain Gauge" "rainfall" ++ pressureMetric bt

/-- `extract_from_messages` applied to one `payload_json` cell. -/
def extractMetrics (c : Cell) : List (String × Cell) :=
  match c with
  | .jsonV j => sensecapRes (byType (flattenMsgs (msgsOf j)))
  | _ => []

/-- First-occurrence union of per-row name lists (pandas column-union
order when turning a series of dicts into a DataFrame). -/
def unionNames (ls : List (List String)) : List String :=
  ls.foldl (fun acc l => l.foldl (fun a n => if a.contains n then a else a ++ [n]) acc) []

/-- The union of metric names extracted from a `payload_json` column. -/
def metricNamesOf (pcol : List Cell) : List String :=
  unionNames ((pcol.map extractMetrics).map (fun d => d.map Prod.fst))

/-- `normalize_sensecap_messages` (lines 403-445). -/
def normalize_sensecap_messages (df : Table) : Table :=
  if tableEmpty df ∨ ¬ hasCol df "payload_json" then df
  else
    if (metricNamesOf ((getCol df "payload_json").getD [])).isEmpty then df
    else
      df ++ ((metricNamesOf ((getCol df "payload_json").getD [])).filter
          (fun n => !(hasCol df n))).map
        (fun n => (n, (((getCol df "payload_json").getD []).map extractMetrics).map
          (fun d => (assocGet d n).getD Cell.nil)))

/-- `pd.to_numeric(df[c], errors="coerce")` applied in place when the
column exists (the `rssi`/`snr` pass of `normalize_all`). -/
def coerceColIn (df : Table) (c : String) : Table :=
  if hasCol df c then setCol df c (((getCol df c).getD []).map coerceCell) else df

/-- `normalize_all` (lines 447-458). -/
def normalize_all (df : Table) : Table :=
  let df := genericCast df
  let df := normalize_dds75 df
  let df := normalize_pslb df
  let df := normalize_sensecap_messages df
  let df := coerceColIn df "rssi"
  coerceColIn df "snr"

/-! ### TTN uplink objects and timestamp extraction -/

/-- One entry of `uplink_message.rx_metadata`. A present-but-unparseable
time string is modelled like an absent one (`none`): both make
`pd.to_datetime(..., errors="coerce")` yield NaT downstream. -/
structure RxMeta where
  time : Option Nat
  rssi : Option ℚ
  snr : Option ℚ
deriving DecidableEq, Repr

/-- The `uplink_message` member of a storage record. -/
structure Uplink where
  received_at : Option Nat
  rx_metadata : List RxMeta
  f_port : Option Nat
  decoded_payload : JsonObj
deriving DecidableEq, Repr

/-- One parsed object from `_robust_json_lines`. -/
structure TTNObj where
  received_at : Option Nat
  created_at : Option Nat
  uplink_message : Option Uplink
deriving DecidableEq, Repr

/-- `_best_ts` (lines 139-146): record-level `received_at`, else
message-level `received_at`, else the `time` of the FIRST `rx_metadata`
entry (`rx[0]`, after padding an empty list with `{}`), else `created_at`. -/
def bestTs (o : TTNObj) : Option Nat :=
  (o.received_at).orElse (fun _ =>
    (o.uplink_message.bind (fun u => u.received_at)).orElse (fun _ =>
      (((o.uplink_message.map (fun u => u.rx_metadata)).getD []).head?.bind
          (fun m => m.time)).orElse (fun _ =>
        o.created_at)))

/-- Timestamp extraction as the specification words it: the third fallback
is "the earliest timestamp among the record's rx_metadata entries".
Written from the spec, for comparison against `bestTs`. -/
def specBestTs (o : TTNObj) : Option Nat :=
  (o.received_at).orElse (fun _ =>
    (o.uplink_message.bind (fun u => u.received_at)).orElse (fun _ =>
      ((((o.uplink_message.map (fun u => u.rx_metadata)).getD []).filterMap
          (fun m => m.time)).min?).orElse (fun _ =>
        o.created_at)))

/-- A priority list collapsed to its first non-null member, mirroring the
chain of `or`s in `_best_ts`. -/
def firstNonNull : List (Option Nat) → Option Nat
  | [] => none
  | o :: rest => match o with
    | some t => some t
    | none => firstNonNull rest

/-- One row of the per-device table, as built in the paging loop
(lines 266-273). `payload` models the `payload_json` text through the
`json.dumps` round-trip. -/
structure MRow where
  received_at : Option Nat
  device_id : String
  f_port : Option Nat
  rssi : Option ℚ
  snr : Option ℚ
  payload : JsonObj
deriving DecidableEq, Repr

/-- The dedup identity tuple `["device_id","received_at","f_port","payload_json"]`. -/
def rowKey (r : MRow) : String × Option Nat × Option Nat × JsonObj :=
  (r.device_id, r.received_at, r.f_port, r.payload)

/-- Building one row from one parsed object (lines 261-273). -/
def toRow (dev : String) (o : TTNObj) : MRow :=
  let rx0 := ((o.uplink_message.map (fun u => u.rx_metadata)).getD []).head?
  { received_at := bestTs o
    device_id := dev
    f_port := o.uplink_message.bind (fun u => u.f_port)
    rssi := rx0.bind (fun m => m.rssi)
    snr := rx0.bind (fun m => m.snr)
    payload := (o.uplink_message.map (fun u => u.decoded_payload)).getD .nil }

/-- One step of the running `max_ts` update (lines 274-277):
`max_ts = tsv if max_ts is None or tsv > max_ts else max_ts`. -/
def maxStep (acc : Option Nat) (o : TTNObj) : Option Nat :=
  match bestTs o with
  | some t =>
    match acc with
    | some m => some (if t > m then t else m)
    | none => some t
  | none => acc

/-- The running `max_ts` over a page (lines 260-277). -/
def batchMaxTs (objs : List TTNObj) : Option Nat :=
  objs.foldl maxStep none

/-! ### Sorting, dedup, merge -/

/-- Ascending order on `received_at` with NaT last (pandas
`sort_values("received_at")`, `na_position='last'`). -/
def tsLe (a b : Option Nat) : Bool :=
  match b with
  | none => true
  | some y => match a with
    | none => false
    | some x => x ≤ y

/-- Row comparison used by the sorts. -/
def rowLe (a b : MRow) : Prop := tsLe a.received_at b.received_at = true

instance : DecidableRel rowLe := fun a b =>
  inferInstanceAs (Decidable (tsLe a.received_at b.received_at = true))

instance : IsTotal MRow rowLe := by
  constructor
  intro a b
  unfold rowLe tsLe
  rcases a.received_at with _ | x <;> rcases b.received_at with _ | y <;> simp
  omega

instance : IsTrans MRow rowLe := by
  constructor
  intro a b c
  unfold rowLe tsLe
  rcases a.received_at with _ | x <;> rcases b.received_at with _ | y <;>
    rcases c.received_at with _ | z <;> simp
  omega

/-- `sort_values("received_at")`, modelled as a stable insertion sort. -/
def sortRows (rows : List MRow) : List MRow := rows.insertionSort rowLe

/-- `drop_duplicates(subset=...)`: keep the first row of each identity. -/
def dedupKey : List MRow → List (String × Option Nat × Option Nat × JsonObj) → List MRow
  | [], _ => []
  | r :: rs, seen =>
    if rowKey r ∈ seen then dedupKey rs seen else r :: dedupKey rs (rowKey r :: seen)

/-- `df.drop_duplicates(subset=["device_id","received_at","f_port","payload_json"])`. -/
def dropDups (rows : List MRow) : List MRow := dedupKey rows []

/-- The merge of device history with a batch of new rows (lines 322-332):
concatenation old-then-new, dedup on the identity tuple, sort by
`received_at`. -/
def mergeHist (old new : List MRow) : List MRow := sortRows (dropDups (old ++ new))

/-! ### The paging loop of `device_pull` -/

/-- `limit` of the primary page request. -/
def limitPrimary : Nat := 200

/-- `limit` of the 400-fallback requests. -/
def limitFallback : Nat := 100

/-- One issued GET against the storage endpoint: its `limit` and optional
`after` parameters. -/
structure Req where
  limit : Nat
  after : Option Nat
deriving DecidableEq, Repr

/-- What one `_do_get_with_retries` call produces: a raised network error
(after exhausted retries), or a response with its status code, whether the
body is blank, and the objects `_robust_json_lines` parses out of it. -/
inductive Resp where
  | raise : Resp
  | mk (status : Nat) (emptyBody : Bool) (objs : List TTNObj) : Resp
deriving DecidableEq, Repr

/-- `r.ok` of the requests library: status below 400. -/
def respOk (status : Nat) : Bool := status < 400

/-- Result of the paging loop: collected rows, the requests issued in
order, the processed pages (effective request paired with its parsed
objects), whether the `return _empty_df()` error path was taken, whether
an exception escaped to the outer handler, and the final cursor state. -/
structure LoopOut where
  rows : List MRow
  reqs : List Req
  pages : List (Req × List TTNObj)
  err : Bool
  raised : Bool
  finalAfter : Nat
  finalUsed : Bool
deriving DecidableEq, Repr

/-- A loop exit where an exception reaches `device_pull`'s outer handler
(network error with retries exhausted, or the scripted environment has no
further event). -/
def raisedOut (reqs : List Req) (after : Nat) (used : Bool) : LoopOut :=
  ⟨[], reqs, [], false, true, after, used⟩

/-- Page-body processing (lines 243-286) for the effective response
chosen after the 400 ladder: the 204/blank-body break, the non-OK error
return, object parsing, row building, `max_ts`, and the paging decision
`len(objs) < eff_limit or max_ts is None` — where `eff_limit` is read
from the ORIGINAL `params` dict, i.e. is always `limit_primary`. -/
def processPage (next : List Resp → Nat → Bool → LoopOut) (rest : List Resp)
    (dev : String) (after : Nat) (used : Bool) (status : Nat) (emptyBody : Bool)
    (objs : List TTNObj) (reqsHere : List Req) (effReq : Req) : LoopOut :=
  if status = 204 ∨ emptyBody then ⟨[], reqsHere, [], false, false, after, used⟩
  else if ¬ respOk status then ⟨[], reqsHere, [], true, false, after, used⟩
  else if objs.isEmpty then ⟨[], reqsHere, [], false, false, after, used⟩
  else
    let batch := objs.map (toRow dev)
    match batchMaxTs objs with
    | none => ⟨batch, reqsHere, [(effReq, objs)], false, false, after, used⟩
    | some m =>
      if objs.length < limitPrimary then
        ⟨batch, reqsHere, [(effReq, objs)], false, false, after, used⟩
      else
        let out := next rest (m + 1) true
        ⟨batch ++ out.rows, reqsHere ++ out.reqs, (effReq, objs) :: out.pages,
          out.err, out.raised, out.finalAfter, out.finalUsed⟩

/-- The `while True` paging loop of `device_pull` (lines 218-286), fuelled
(each iteration consumes at least one scripted event, so fuel
`script.length + 1` never runs dry). A 400 response triggers the fallback
ladder: retry with `limit=100` and the same `after`; if that response is
not OK or blank, retry with `limit=100` and no `after` (clearing
`used_after`). -/
def pullLoop (dev : String) : Nat → List Resp → Nat → Bool → LoopOut
  | 0, _, after, used => raisedOut [] after used
  | fuel + 1, script, after, used =>
    let req1 : Req := ⟨limitPrimary, if used then some after else none⟩
    match script with
    | [] => raisedOut [req1] after used
    | r :: rest =>
      match r with
      | .raise => raisedOut [req1] after used
      | .mk s eb objs =>
        if s = 400 then
          let req2 : Req := ⟨limitFallback, req1.after⟩
          match rest with
          | [] => raisedOut [req1, req2] after used
          | r2 :: rest2 =>
            match r2 with
            | .raise => raisedOut [req1, req2] after used
            | .mk s2 eb2 objs2 =>
              if ¬ respOk s2 ∨ eb2 then
                let req3 : Req := ⟨limitFallback, none⟩
                match rest2 with
                | [] => raisedOut [req1, req2, req3] after used
                | r3 :: rest3 =>
                  match r3 with
                  | .raise => raisedOut [req1, req2, req3] after used
                  | .mk s3 eb3 objs3 =>
                    processPage (fun sc a u => pullLoop dev fuel sc a u) rest3 dev
                      after false s3 eb3 objs3 [req1, req2, req3] req3
              else
                processPage (fun sc a u => pullLoop dev fuel sc a u) rest2 dev
                  after used s2 eb2 objs2 [req1, req2] req2
        else
          processPage (fun sc a u => pullLoop dev fuel sc a u) rest dev
            after used s eb objs [req1] req1

/-! ### `device_pull`: history read, cursor resume, merge, persistence -/

/-- Column order of a DataFrame built from the loop's row dicts
(line 266: `received_at` first). -/
def NEW_COLS : List String :=
  ["received_at", "device_id", "f_port", "rssi", "snr", "payload_json"]

/-- Column order of `_empty_df()` (line 186). -/
def EMPTY_COLS : List String :=
  ["device_id", "received_at", "f_port", "rssi", "snr", "payload_json"]

/-- A per-device DataFrame: its column names and its rows. -/
structure DF where
  cols : List String
  rows : List MRow
deriving DecidableEq, Repr

/-- `_empty_df()`. -/
def emptyDF : DF := ⟨EMPTY_COLS, []⟩

/-- `pd.DataFrame(all_rows)`: an empty row list yields a frame with no
columns at all. -/
def dfOfRows (rows : List MRow) : DF :=
  if rows.isEmpty then ⟨[], []⟩ else ⟨NEW_COLS, rows⟩

/-- What reading the persisted per-device history can yield: no file on
disk, files present but unreadable (both parquet and CSV fail), or rows
(possibly with NaT timestamps from a lossy CSV round-trip). -/
inductive HistRead where
  | noFiles : HistRead
  | readFail : HistRead
  | ok (rows : List MRow) : HistRead
deriving DecidableEq, Repr

/-- `pd.to_datetime(df_old_ts["received_at"]).max()`: NaT entries are
skipped; an empty or all-NaT column gives NaT (`none`). -/
def histMaxTs (rows : List MRow) : Option Nat :=
  (rows.filterMap (fun r => r.received_at)).max?

/-- Initial cursor state (lines 188-213): start from the environment
window `AFTER`; when history rows with a valid maximum timestamp exist,
advance to `max(current_after, last_old + 1s)` and set `used_after`. -/
def initCursor (hist : HistRead) (afterEnv : Nat) : Nat × Bool :=
  match hist with
  | .ok rows =>
    match histMaxTs rows with
    | some m => (Nat.max afterEnv (m + 1), true)
    | none => (afterEnv, false)
  | _ => (afterEnv, false)

/-- The outcome of one `device_pull` run. `newRows` is `df_new` after
`dropna`/sort; `persisted` is the merged table written to parquet/CSV
(absent when nothing is written). -/
structure PullResult where
  df : DF
  newRows : List MRow
  persisted : Option DF
  loopErr : Bool
  loopRaised : Bool
  reqs : List Req
  pages : List (Req × List TTNObj)
deriving DecidableEq, Repr

/-- The re-read of the persisted history for the merge (lines 306-320):
no files, an empty no-column frame on read failure, or the old rows. -/
def histDF : HistRead → Option DF
  | .noFiles => none
  | .readFail => some ⟨[], []⟩
  | .ok rows => some ⟨NEW_COLS, rows⟩

/-- The merge of the old frame with `df_new` (lines 306-327):
`pd.concat([df_old, df_new])` when both are non-empty, else whichever is
non-empty. -/
def mergedDF (hist : HistRead) (newRows : List MRow) : DF :=
  match histDF hist with
  | none => dfOfRows newRows
  | some old =>
    if ¬ old.rows.isEmpty ∧ ¬ newRows.isEmpty then ⟨old.cols, old.rows ++ newRows⟩
    else if newRows.isEmpty then old
    else dfOfRows newRows

/-- `device_pull` (lines 175-350) against a scripted environment: resume
cursor from history, run the paging loop, drop rows without a timestamp,
sort, merge with the old table, dedup, sort, persist. Any raised
exception and any non-OK page return the empty frame. -/
def devicePull (dev : String) (hist : HistRead) (script : List Resp)
    (afterEnv : Nat) : PullResult :=
  let st := initCursor hist afterEnv
  let out := pullLoop dev (script.length + 1) script st.1 st.2
  if out.raised ∨ out.err then
    ⟨emptyDF, [], none, out.err, out.raised, out.reqs, out.pages⟩
  else
    let newRows := sortRows (out.rows.filter (fun r => r.received_at.isSome))
    let df := mergedDF hist newRows
    if df.rows.isEmpty then
      ⟨emptyDF, newRows, none, false, false, out.reqs, out.pages⟩
    else
      let final : DF := ⟨df.cols, sortRows (dropDups df.rows)⟩
      ⟨final, newRows, some final, false, false, out.reqs, out.pages⟩

/-- The device-loop status computation of the dashboard pass
(lines 602-618): an empty pull surfaces as `"empty"`, data as `"ok"`;
the `"error"` branch only fires on an exception inside the loop body. -/
def deviceStatus (df : DF) : String := if df.rows.isEmpty then "empty" else "ok"

/-- The in-memory table the dashboard pass builds from a pull result
before flattening/normalizing (`df = device_pull(dev)` then
`flatten_payload`, `normalize_all`). -/
def toTable (rows : List MRow) : Table :=
  [("received_at", rows.map (fun r => match r.received_at with
      | some t => Cell.num t
      | none => Cell.nil)),
   ("device_id", rows.map (fun r => Cell.str r.device_id)),
   ("f_port", rows.map (fun r => match r.f_port with
      | some p => Cell.num p
      | none => Cell.nil)),
   ("rssi", rows.map (fun r => match r.rssi with
      | some q => Cell.num q
      | none => Cell.nil)),
   ("snr", rows.map (fun r => match r.snr with
      | some q => Cell.num q
      | none => Cell.nil)),
   ("payload_json", rows.map (fun r => Cell.jsonV (Json.obj r.payload)))]

/-! ### Payload flattening (`flatten_payload`, lines 353-363) -/

/-- Replace `'.'` by `'_'` in a column name (the
`rename(columns=lambda c: c.replace(".", "_"))` step). -/
def underscoreName (s : String) : String :=
  ⟨s.data.map (fun c => if c = '.' then '_' else c)⟩

/-- `pd.json_normalize` on one record: nested objects are recursed into
with dotted paths, everything else (scalars, arrays) is a leaf. An empty
nested object contributes no columns. -/
def flattenObj : JsonObj → List (String × Json)
  | .nil => []
  | .cons k (.obj fs) tl =>
    (flattenObj fs).map (fun p => (k ++ "." ++ p.1, p.2)) ++ flattenObj tl
  | .cons k v tl => (k, v) :: flattenObj tl

/-- The flattened, renamed column/value pairs of one payload. -/
def flatRecord (fs : JsonObj) : List (String × Json) :=
  (flattenObj fs).map (fun p => (underscoreName p.1, p.2))

/-- The parsed payload of one `payload_json` cell
(`json.loads(s) if isinstance(s, str) and s else {}`). -/
def cellPayload : Cell → JsonObj
  | .jsonV (.obj fs) => fs
  | _ => .nil

/-- The flattened records of a `payload_json` column. -/
def flatsOf (pcol : List Cell) : List (List (String × Json)) :=
  pcol.map (fun c => flatRecord (cellPayload c))

/-- The union of flattened column names of a `payload_json` column. -/
def flatNamesOf (pcol : List Cell) : List String :=
  unionNames ((flatsOf pcol).map (fun l => l.map Prod.fst))

/-- `flatten_payload` (lines 353-363): flatten each row's payload, form
the union of flattened column names, DROP every flattened column whose
name already exists in the table, and append the rest. -/
def flatten_payload (df : Table) : Table :=
  if tableEmpty df ∨ ¬ hasCol df "payload_json" then df
  else
    if ¬ ((getCol df "payload_json").getD []).any (fun c => (cellPayload c).isNonEmpty) then df
    else
      df ++ ((flatNamesOf ((getCol df "payload_json").getD [])).filter
          (fun n => !(hasCol df n))).map
        (fun n => (n, (flatsOf ((getCol df "payload_json").getD [])).map
          (fun l => ((assocGet l n).map ofJsonCell).getD Cell.nil)))

/-! ### Concrete fixtures used by several theorems -/

/-- A SenseCAP `payload_json` cell whose `messages` list carries one
`Barometric Pressure` entry with the given `measurementValue`. -/
def senseCell (q : ℚ) : Cell :=
  Cell.jsonV (Json.obj (.cons "messages"
    (Json.arr (.cons (Json.obj (.cons "type" (Json.str "Barometric Pressure")
      (.cons "measurementValue" (Json.num q) .nil))) .nil)) .nil))

/-- A minimal uplink object with the given record-level timestamp. -/
def sampleObj (t : Nat) : TTNObj :=
  ⟨some t, none, some ⟨none, [], some 2, .nil⟩⟩

/-! ### C3 — unit-conversion correctness -/

/-- C3: a raw `Distance_mm` of 1000 normalizes to `distance_cm = 100`
(division by 10); a SenseCAP `Barometric Pressure` of 101325 exceeds the
5000 threshold and normalizes to `pressure_hpa = 1013.25`, while 1013
stays unchanged. -/
theorem c3_unit_conversion :
    getCol (normalize_dds75 [("Distance_mm", [Cell.num 1000])]) "distance_cm"
      = some [Cell.num 100]
    ∧ getCol (normalize_sensecap_messages [("payload_json", [senseCell 101325])])
        "pressure_hpa" = some [Cell.num (1013.25 : ℚ)]
    ∧ getCol (normalize_sensecap_messages [("payload_json", [senseCell 1013])])
        "pressure_hpa" = some [Cell.num 1013] := by
  refine ⟨?_, ?_, ?_⟩
  · norm_num [normalize_dds75, dds75Battery, distVal, hasCol, colNames, getCol, setCol,
      assocGet, assocSet, coercedCol, coerceCell, parseCell, cellDiv10, ruleStep,
      List.find?, List.foldl]
    exact ⟨_, rfl⟩
  · norm_num [normalize_sensecap_messages, metricNamesOf, tableEmpty, hasCol, colNames,
      getCol, setCol, assocGet, assocSet, unionNames, extractMetrics, sensecapRes, byType,
      btStep, pickMetric, pressureMetric, flattenMsgs, msgsOf, senseCell, JsonObj.get,
      JsonArr.toList, floatOfJson, cellFloat, ofJsonCell, List.foldl, List.find?,
      List.filter]
    exact ⟨_, rfl⟩
  · norm_num [normalize_sensecap_messages, metricNamesOf, tableEmpty, hasCol, colNames,
      getCol, setCol, assocGet, assocSet, unionNames, extractMetrics, sensecapRes, byType,
      btStep, pickMetric, pressureMetric, flattenMsgs, msgsOf, senseCell, JsonObj.get,
      JsonArr.toList, floatOfJson, cellFloat, ofJsonCell, List.foldl, List.find?,
      List.filter]
    exact ⟨_, rfl⟩

/-- The `newRows` of a pull are either nothing (failure path) or exactly
`df_new`: the loop rows without null timestamps, sorted. -/
lemma devicePull_newRows (dev : String) (hist : HistRead) (script : List Resp)
    (afterEnv : Nat) :
    (devicePull dev hist script afterEnv).newRows = [] ∨
    (devicePull dev hist script afterEnv).newRows =
      sortRows ((pullLoop dev (script.length + 1) script (initCursor hist afterEnv).1
        (initCursor hist afterEnv).2).rows.filter (fun r => r.received_at.isSome)) := by
  simp only [devicePull]
  split
  · exact Or.inl rfl
  · right
    split <;> first | rfl | (split <;> rfl)

/-! ### C5 — timestamp extraction priority -/

/-- An uplink whose two gateway entries are out of time order: the first
entry carries time 10, a later one time 5. -/
def twoGatewayObj : TTNObj :=
  ⟨none, none, some ⟨none, [⟨some 10, none, none⟩, ⟨some 5, none, none⟩], none, .nil⟩⟩

/-- C5, counterexample: for the third fallback `_best_ts` takes the
`time` of the FIRST `rx_metadata` entry (`rx[0]`), not the earliest one
as the claim states: on `twoGatewayObj` the code yields 10 while the
claimed earliest-entry extraction yields 5. -/
theorem c5_counterexample :
    bestTs twoGatewayObj = some 10 ∧ specBestTs twoGatewayObj = some 5
    ∧ bestTs twoGatewayObj ≠ specBestTs twoGatewayObj := by
  decide

/-- C5, amended: the extracted timestamp is the first non-null of
record-level `received_at`, message-level `received_at`, the `time` of
the FIRST `rx_metadata` entry, and `created_at`; rows whose extracted
timestamp is null never appear in `df_new` (they are dropped before
persistence). -/
theorem c5_priority_first_entry :
    (∀ o : TTNObj, bestTs o = firstNonNull
      [o.received_at, o.uplink_message.bind (fun u => u.received_at),
       ((o.uplink_message.map (fun u => u.rx_metadata)).getD []).head?.bind
         (fun m => m.time),
       o.created_at])
    ∧ (∀ dev hist script afterEnv r,
        r ∈ (devicePull dev hist script afterEnv).newRows → r.received_at.isSome = true) := by
  constructor
  · intro o
    rcases o with ⟨ra, ca, up⟩
    rcases ra with _ | t <;>
      [skip; simp [bestTs, firstNonNull, Option.orElse]]
    rcases up with _ | u
    · rcases ca with _ | c <;> simp [bestTs, firstNonNull, Option.orElse]
    · rcases u with ⟨ura, rx, fp, pl⟩
      rcases ura with _ | t2 <;>
        [skip; simp [bestTs, firstNonNull, Option.orElse]]
      rcases rx with _ | ⟨m0, rest⟩
      · rcases ca with _ | c <;> simp [bestTs, firstNonNull, Option.orElse]
      · rcases h : m0.time with _ | tm
        · rcases ca with _ | c <;> simp [bestTs, firstNonNull, Option.orElse, h]
        · simp [bestTs, firstNonNull, Option.orElse, h]
  · intro dev hist script afterEnv r hr
    rcases devicePull_newRows dev hist script afterEnv with h | h
    · rw [h] at hr; cases hr
    · rw [h] at hr
      have := (List.mem_insertionSort rowLe).1 hr
      exact (List.mem_filter.1 this).2

/-- Witness for `c5_priority_first_entry`: both parts applied at a
concrete uplink and a concrete one-page pull. -/
theorem c5_priority_first_entry_witness :
    bestTs twoGatewayObj = firstNonNull
      [twoGatewayObj.received_at,
       twoGatewayObj.uplink_message.bind (fun u => u.received_at),
       ((twoGatewayObj.uplink_message.map (fun u => u.rx_metadata)).getD []).head?.bind
         (fun m => m.time),
       twoGatewayObj.created_at]
    ∧ (toRow "d" (sampleObj 5)).received_at.isSome = true := by
  constructor
  · exact c5_priority_first_entry.1 twoGatewayObj
  · exact c5_priority_first_entry.2 "d" .noFiles [Resp.mk 200 false [sampleObj 5]] 0
      (toRow "d" (sampleObj 5)) (by decide)

/-! ### C8 — flattening -/

/-- Membership in an association-list lookup: a hit names a pair of the list. -/
lemma assocGet_eq_some_mem {α : Type} {l : List (String × α)} {k : String} {v : α}
    (h : assocGet l k = some v) : (k, v) ∈ l := by
  unfold assocGet at h
  rcases hf : l.find? (fun p => p.1 == k) with _ | p
  · rw [hf] at h; cases h
  · rw [hf] at h
    have hp1 : p.1 = k := by simpa using List.find?_some hf
    have hm := List.mem_of_find?_eq_some hf
    have hv : p.2 = v := by simpa using h
    have hkv : (k, v) = p := by
      rcases p with ⟨a, b⟩
      simp only at hp1 hv
      rw [hp1, hv]
    rw [hkv]
    exact hm

/-- A key present in the table makes `find?` succeed. -/
lemma hasCol_find?_isSome {df : Table} {n : String} (h : hasCol df n = true) :
    (df.find? (fun p => p.1 == n)).isSome := by
  unfold hasCol colNames at h
  rw [List.contains_eq_any_beq] at h
  rcases List.any_eq_true.1 h with ⟨k, hk, hbeq⟩
  rcases List.mem_map.1 hk with ⟨p, hp, hfst⟩
  have hkn : n = k := by simpa using hbeq
  exact List.find?_isSome.2 ⟨p, hp, by simp [hfst, hkn.symm]⟩

/-- A key absent from the table makes `find?` fail. -/
lemma hasCol_false_find?_eq_none {df : Table} {n : String} (h : hasCol df n = false) :
    df.find? (fun p => p.1 == n) = none := by
  rw [List.find?_eq_none]
  intro p hp hbeq
  unfold hasCol colNames at h
  rw [List.contains_eq_any_beq] at h
  have hpn : p.1 = n := by simpa using hbeq
  have hany : ((df.map Prod.fst).any (fun x => n == x)) = true :=
    List.any_eq_true.2 ⟨p.1, List.mem_map.2 ⟨p, hp, rfl⟩, by simp [hpn]⟩
  rw [h] at hany
  cases hany

/-- Looking a present key up ignores anything appended on the right. -/
lemma assocGet_append_left {α : Type} {df rest : List (String × α)} {n : String}
    (h : (df.find? (fun p => p.1 == n)).isSome) :
    assocGet (df ++ rest) n = assocGet df n := by
  unfold assocGet
  rw [List.find?_append]
  rcases hf : df.find? (fun p => p.1 == n) with _ | p
  · rw [hf] at h; simp at h
  · rw [hf]; rfl

/-- Looking an absent key up skips to the appended part. -/
lemma assocGet_append_right {α : Type} {df rest : List (String × α)} {n : String}
    (h : df.find? (fun p => p.1 == n) = none) :
    assocGet (df ++ rest) n = assocGet rest n := by
  unfold assocGet
  rw [List.find?_append, h]
  rfl

/-- Lookup in a keyed `map` over the key list itself. -/
lemma assocGet_map_of_mem {α : Type} {keep : List String} {n : String}
    (f : String → α) (h : n ∈ keep) :
    assocGet (keep.map (fun m => (m, f m))) n = some (f n) := by
  induction keep with
  | nil => cases h
  | cons k tl ih =>
    by_cases hk : k = n
    · subst hk
      unfold assocGet
      rw [List.map_cons, List.find?_cons_of_pos _ (by simp)]
      rfl
    · have htl : n ∈ tl := by
        rcases List.mem_cons.1 h with h1 | h1
        · exact absurd h1.symm hk
        · exact h1
      unfold assocGet at ih ⊢
      rw [List.map_cons, List.find?_cons_of_neg _ (by simpa using hk)]
      exact ih htl

/-- The inner fold of `unionNames` keeps what the accumulator already has. -/
lemma unionNames_inner_sub (l : List String) :
    ∀ (acc : List String) (x : String), x ∈ acc →
      x ∈ l.foldl (fun a n => if a.contains n then a else a ++ [n]) acc := by
  induction l with
  | nil => intro acc x hx; simpa using hx
  | cons n tl ih =>
    intro acc x hx
    simp only [List.foldl_cons]
    by_cases h : acc.contains n
    · rw [if_pos h]; exact ih _ _ hx
    · rw [if_neg h]; exact ih _ _ (List.mem_append_left _ hx)

/-- The inner fold of `unionNames` picks up every new name. -/
lemma unionNames_inner_mem (l : List String) :
    ∀ (acc : List String) (x : String), x ∈ l →
      x ∈ l.foldl (fun a n => if a.contains n then a else a ++ [n]) acc := by
  induction l with
  | nil => intro acc x hx; cases hx
  | cons n tl ih =>
    intro acc x hx
    simp only [List.foldl_cons]
    rcases List.mem_cons.1 hx with rfl | htl
    · by_cases h : acc.contains x
      · rw [if_pos h]
        exact unionNames_inner_sub _ _ _ (by simpa using h)
      · rw [if_neg h]
        exact unionNames_inner_sub _ _ _ (List.mem_append_right _ (by simp))
    · by_cases h : acc.contains n
      · rw [if_pos h]; exact ih _ _ htl
      · rw [if_neg h]; exact ih _ _ htl

/-- The outer fold of `unionNames`, generalized over the accumulator. -/
lemma unionNames_foldl_mem (ls : List (List String)) :
    ∀ (acc : List String) (x : String), (x ∈ acc ∨ ∃ l ∈ ls, x ∈ l) →
      x ∈ ls.foldl
        (fun acc l => l.foldl (fun a n => if a.contains n then a else a ++ [n]) acc) acc := by
  induction ls with
  | nil =>
    intro acc x h
    rcases h with h | ⟨l, hl, _⟩
    · simpa using h
    · cases hl
  | cons hd tl ih =>
    intro acc x h
    simp only [List.foldl_cons]
    rcases h with h | ⟨l, hl, hx⟩
    · exact ih _ x (Or.inl (unionNames_inner_sub _ _ _ h))
    · rcases List.mem_cons.1 hl with rfl | htl
      · exact ih _ x (Or.inl (unionNames_inner_mem _ _ _ hx))
      · exact ih _ x (Or.inr ⟨l, htl, hx⟩)

/-- `unionNames` contains every name of every row list. -/
lemma unionNames_mem {ls : List (List String)} {l : List String} {x : String}
    (hl : l ∈ ls) (hx : x ∈ l) : x ∈ unionNames ls :=
  unionNames_foldl_mem ls [] x (Or.inr ⟨l, hl, hx⟩)

/-- A one-record table whose payload carries a key (`rssi`) that collides
with a base column. -/
def collidingTable : Table :=
  [("rssi", [Cell.num (-80)]),
   ("payload_json", [Cell.jsonV (Json.obj (.cons "rssi" (Json.num 42) .nil))])]

/-- C8, counterexample: flattening is NOT lossless for every leaf. The
payload leaf `rssi = 42` flattens to the name `rssi`, which already is a
column of the table, so `flatten_payload` drops it: the output equals the
input and the value 42 is reachable in no column. -/
theorem c8_counterexample :
    ("rssi", Json.num 42) ∈
      flatRecord (cellPayload (Cell.jsonV (Json.obj (.cons "rssi" (Json.num 42) .nil))))
    ∧ flatten_payload collidingTable = collidingTable
    ∧ ∀ p ∈ flatten_payload collidingTable, Cell.num 42 ∉ p.2 := by
  refine ⟨by decide, by decide, ?_⟩
  decide

/-- C8, amended: flattening is deterministic and lossless modulo name
collisions: flattened names are the nested key paths joined with `.` and
then `.`-to-`_` renamed; every payload leaf whose flattened name is NOT
already a column of the table is reachable by that name (at its row
position), while a colliding name keeps the pre-existing column
unchanged. -/
theorem c8_flatten_lossless :
    (∀ df n, hasCol df n = true → getCol (flatten_payload df) n = getCol df n)
    ∧ (∀ (df : Table) (i : Nat) (c : Cell) (n : String) (v : Json),
        hasCol df n = false →
        ((getCol df "payload_json").getD [])[i]? = some c →
        assocGet (flatRecord (cellPayload c)) n = some v →
        ∃ col, getCol (flatten_payload df) n = some col
          ∧ col[i]? = some (ofJsonCell v)) := by
  constructor
  · intro df n h
    unfold flatten_payload getCol
    split
    · rfl
    · split
      · rfl
      · exact assocGet_append_left (hasCol_find?_isSome h)
  · intro df i c n v hno hcell hleaf
    have hpcolOpt : ∃ pcol, getCol df "payload_json" = some pcol ∧ pcol[i]? = some c := by
      rcases hp : getCol df "payload_json" with _ | pcol
      · rw [hp] at hcell; simp at hcell
      · rw [hp] at hcell; exact ⟨pcol, rfl, hcell⟩
    rcases hpcolOpt with ⟨pcol, hp, hc⟩
    have hcmem : c ∈ pcol := List.getElem?_mem hc
    have hpayCol : hasCol df "payload_json" = true := by
      unfold hasCol colNames
      rw [List.contains_eq_any_beq]
      refine List.any_eq_true.2 ?_
      rcases assocGet_eq_some_mem hp with hm
      exact ⟨"payload_json", List.mem_map.2 ⟨_, hm, rfl⟩, by simp⟩
    have hkvs : (cellPayload c).isNonEmpty = true := by
      rcases hk : cellPayload c with _ | ⟨k, val, tl⟩
      · rw [hk] at hleaf; simp [flatRecord, flattenObj, assocGet, List.find?] at hleaf
      · rfl
    have hne : tableEmpty df = false := by
      unfold tableEmpty
      have hdfne : df ≠ [] := by
        intro h; rw [h] at hp; simp [getCol, assocGet, List.find?] at hp
      have hpair : ("payload_json", pcol) ∈ df := assocGet_eq_some_mem hp
      have hpcne : pcol ≠ [] := by
        intro h; rw [h] at hc; simp at hc
      simp only [Bool.or_eq_false_iff]
      constructor
      · simpa [List.isEmpty_iff] using hdfne
      · refine Bool.eq_false_iff.2 ?_
        intro hall
        have := List.all_eq_true.1 hall _ hpair
        simp [List.isEmpty_iff] at this
        exact hpcne this
    have hany : pcol.any (fun c => (cellPayload c).isNonEmpty) = true :=
      List.any_eq_true.2 ⟨c, hcmem, hkvs⟩
    have hnmem : n ∈ flatNamesOf pcol := by
      refine unionNames_mem (l := (flatRecord (cellPayload c)).map Prod.fst) ?_ ?_
      · exact List.mem_map.2 ⟨flatRecord (cellPayload c),
          List.mem_map.2 ⟨c, hcmem, rfl⟩, rfl⟩
      · exact List.mem_map.2 ⟨(n, v), assocGet_eq_some_mem hleaf, rfl⟩
    have hkeep : n ∈ (flatNamesOf pcol).filter (fun n => !(hasCol df n)) :=
      List.mem_filter.2 ⟨hnmem, by rw [hno]; rfl⟩
    unfold flatten_payload
    rw [hp]
    simp only [Option.getD_some]
    rw [if_neg (by simp [hne, hpayCol]), if_neg (by simp [hany])]
    refine ⟨(flatsOf pcol).map (fun l => ((assocGet l n).map ofJsonCell).getD Cell.nil),
      ?_, ?_⟩
    · unfold getCol
      rw [assocGet_append_right (hasCol_false_find?_eq_none hno)]
      exact assocGet_map_of_mem _ hkeep
    · unfold flatsOf
      rw [List.getElem?_map, List.getElem?_map, hc]
      simp [hleaf]

/-- Witness for `c8_flatten_lossless`: a payload leaf `a.b = 7` lands in
column `a_b` of a table that did not have that column. -/
theorem c8_flatten_lossless_witness :
    getCol (flatten_payload collidingTable) "rssi" = getCol collidingTable "rssi"
    ∧ ∃ col,
        getCol (flatten_payload
          [("payload_json",
            [Cell.jsonV (Json.obj (.cons "a"
              (Json.obj (.cons "b" (Json.num 7) .nil)) .nil))])]) "a_b" = some col
        ∧ col[0]? = some (ofJsonCell (Json.num 7)) := by
  constructor
  · exact c8_flatten_lossless.1 collidingTable "rssi" (by decide)
  · exact c8_flatten_lossless.2
      [("payload_json",
        [Cell.jsonV (Json.obj (.cons "a" (Json.obj (.cons "b" (Json.num 7) .nil)) .nil))])]
      0 (Cell.jsonV (Json.obj (.cons "a" (Json.obj (.cons "b" (Json.num 7) .nil)) .nil)))
      "a_b" (Json.num 7) (by decide) (by decide) (by decide)

/-! ### C6 — pagination termination -/

/-- A 400 answered by an OK fallback page of exactly 100 objects: the cap
in effect for that request is the fallback cap 100. -/
def fallbackExactScript : List Resp :=
  [Resp.mk 400 false [], Resp.mk 200 false (List.replicate 100 (sampleObj 5))]

set_option maxRecDepth 10000 in
/-- C6, counterexample: after the 400 fallback, the processed page has
exactly as many objects as the cap in effect for its request (100), and a
maximum timestamp exists — the claim says pagination must continue, but
the code compares against the ORIGINAL `params` limit (200) and stops:
only 2 requests are ever issued. -/
theorem c6_counterexample :
    (pullLoop "d" 3 fallbackExactScript 0 false).reqs.length = 2
    ∧ (pullLoop "d" 3 fallbackExactScript 0 false).pages.map
        (fun p => (p.1.limit, p.2.length)) = [(100, 100)]
    ∧ batchMaxTs (List.replicate 100 (sampleObj 5)) = some 5
    ∧ (pullLoop "d" 3 fallbackExactScript 0 false).err = false
    ∧ (pullLoop "d" 3 fallbackExactScript 0 false).raised = false := by
  refine ⟨by decide, by decide, by decide, by decide, by decide⟩

/-- C6, amended: the stop test always compares the page against the
primary cap `limit_primary = 200` (the `params` dict is never updated by
the fallback ladder), not the cap of the request actually in effect.
For an OK page: pagination issues another request iff the page has at
least 200 parsed objects AND a maximum timestamp exists; a device
answering a full 200-page then a strictly smaller page gets exactly 2
requests. -/
theorem c6_pagination_termination :
    (∀ (dev : String) (a : Nat) (u : Bool) (objs1 objs2 : List TTNObj) (m : Nat),
        objs1.length = limitPrimary →
        batchMaxTs objs1 = some m →
        objs2.length < limitPrimary →
        (pullLoop dev 3 [Resp.mk 200 false objs1, Resp.mk 200 false objs2] a u).reqs.length
          = 2)
    ∧ (∀ (dev : String) (fuel a : Nat) (u : Bool) (s : Nat) (objs : List TTNObj),
        respOk s = true → s ≠ 204 → objs ≠ [] →
        ((pullLoop dev (fuel + 2) [Resp.mk s false objs] a u).reqs.length = 1 ↔
          (objs.length < limitPrimary ∨ batchMaxTs objs = none))) := by
  constructor
  · intro dev a u objs1 objs2 m hlen hmax hlt
    have hne1 : objs1.isEmpty = false := by
      rcases objs1 with _ | ⟨x, xs⟩
      · rw [List.length_nil] at hlen; simp [limitPrimary] at hlen
      · rfl
    have hnlt1 : ¬ objs1.length < limitPrimary := by
      rw [hlen]; exact Nat.lt_irrefl _
    by_cases h2 : objs2.isEmpty
    · simp [pullLoop, processPage, respOk, hne1, hmax, hnlt1, h2]
    · rcases hm2 : batchMaxTs objs2 with _ | m2 <;>
        simp [pullLoop, processPage, respOk, hne1, hmax, hnlt1, h2, hm2, hlt]
  · intro dev fuel a u s objs hok h204 hne
    have h400 : ¬ (s = 400) := by
      intro h; rw [h] at hok; simp [respOk] at hok
    have hneb : objs.isEmpty = false := by
      rcases objs with _ | ⟨x, xs⟩
      · exact absurd rfl hne
      · rfl
    rcases hm : batchMaxTs objs with _ | m
    · simp [pullLoop, processPage, h400, h204, hok, hneb, hm]
    · by_cases hlen : objs.length < limitPrimary
      · simp [pullLoop, processPage, h400, h204, hok, hneb, hm, hlen]
      · simp [pullLoop, processPage, raisedOut, h400, h204, hok, hneb, hm, hlen]

set_option maxRecDepth 10000 in
/-- Witness for `c6_pagination_termination`: a 200-object page followed by
a 1-object page takes exactly 2 requests, and a single short OK page
stops after 1 request. -/
theorem c6_pagination_termination_witness :
    (pullLoop "d" 3 [Resp.mk 200 false (List.replicate 200 (sampleObj 5)),
      Resp.mk 200 false [sampleObj 7]] 0 false).reqs.length = 2
    ∧ ((pullLoop "d" 2 [Resp.mk 200 false [sampleObj 7]] 0 false).reqs.length = 1 ↔
        (([sampleObj 7] : List TTNObj).length < limitPrimary ∨
          batchMaxTs [sampleObj 7] = none)) := by
  constructor
  · exact c6_pagination_termination.1 "d" 0 false (List.replicate 200 (sampleObj 5))
      [sampleObj 7] 5 (by decide) (by decide) (by decide)
  · exact c6_pagination_termination.2 "d" 0 0 false 200 [sampleObj 7]
      (by decide) (by decide) (by decide)

/-! ### C7 — HTTP 400 fallback ladder -/

/-- One previously persisted row for the C7 counterexample. -/
def histRow : MRow := ⟨some 5, "d", some 1, none, none, .nil⟩

/-- The ladder script of the C7 counterexample: 400, then a 500, then a
final 500 whose body is EMPTY. -/
def ladderEmptyBodyScript : List Resp :=
  [Resp.mk 400 false [], Resp.mk 500 false [], Resp.mk 500 true []]

/-- C7, counterexample: when the final ladder response is not OK but has
an empty body, `device_pull` does NOT return an empty result: the blank-
body check (line 243) fires before the `not r.ok` check (line 246), the
loop merely breaks, and the previously stored history is returned. -/
theorem c7_counterexample :
    respOk 500 = false
    ∧ (devicePull "d" (.ok [histRow]) ladderEmptyBodyScript 0).df.rows = [histRow]
    ∧ (devicePull "d" (.ok [histRow]) ladderEmptyBodyScript 0).df ≠ emptyDF := by
  refine ⟨by decide, by decide, by decide⟩

/-- C7, amended: on a 400 the ladder retries with `limit=100` and the same
`after`, then (if that is not OK or blank) with `limit=100` and no
`after`; when the final response is not OK AND has a non-empty body,
`device_pull` returns the empty frame without raising (a final not-OK
response with an empty body instead ends pagination and returns the
stored history). -/
theorem c7_fallback_ladder :
    ∀ (dev : String) (hist : HistRead) (afterEnv : Nat) (eb1 : Bool)
      (s2 : Nat) (eb2 : Bool) (s3 : Nat) (objs1 objs2 objs3 : List TTNObj)
      (rest : List Resp),
      (respOk s2 = false ∨ eb2 = true) →
      respOk s3 = false →
      (devicePull dev hist
          (Resp.mk 400 eb1 objs1 :: Resp.mk s2 eb2 objs2 :: Resp.mk s3 false objs3 :: rest)
          afterEnv).df = emptyDF
      ∧ (devicePull dev hist
          (Resp.mk 400 eb1 objs1 :: Resp.mk s2 eb2 objs2 :: Resp.mk s3 false objs3 :: rest)
          afterEnv).persisted = none
      ∧ (devicePull dev hist
          (Resp.mk 400 eb1 objs1 :: Resp.mk s2 eb2 objs2 :: Resp.mk s3 false objs3 :: rest)
          afterEnv).reqs =
        [⟨limitPrimary, if (initCursor hist afterEnv).2 then some (initCursor hist afterEnv).1
            else none⟩,
         ⟨limitFallback, if (initCursor hist afterEnv).2 then some (initCursor hist afterEnv).1
            else none⟩,
         ⟨limitFallback, none⟩] := by
  intro dev hist afterEnv eb1 s2 eb2 s3 objs1 objs2 objs3 rest h2 h3
  have h3ne204 : s3 ≠ 204 := by
    intro h; rw [h] at h3; simp [respOk] at h3
  have hcond2 : ¬ respOk s2 = true ∨ eb2 = true := by
    rcases h2 with h | h
    · exact Or.inl (by simp [h])
    · exact Or.inr h
  have hcond3 : ¬ (s3 = 204 ∨ (false : Bool) = true) := by
    rintro (h | h)
    · exact h3ne204 h
    · cases h
  have hcond4 : ¬ respOk s3 = true := by simp [h3]
  have hloop :
      pullLoop dev (rest.length + 3 + 1)
        (Resp.mk 400 eb1 objs1 :: Resp.mk s2 eb2 objs2 :: Resp.mk s3 false objs3 :: rest)
        (initCursor hist afterEnv).1 (initCursor hist afterEnv).2 =
      ⟨[], [⟨limitPrimary, if (initCursor hist afterEnv).2 then some (initCursor hist afterEnv).1
            else none⟩,
           ⟨limitFallback, if (initCursor hist afterEnv).2 then some (initCursor hist afterEnv).1
            else none⟩,
           ⟨limitFallback, none⟩], [], true, false,
        (initCursor hist afterEnv).1, false⟩ := by
    simp [pullLoop, processPage, h2, h3, h3ne204, hcond2, hcond3, hcond4]
  unfold devicePull
  simp only [List.length_cons, hloop]
  rw [if_pos (by simp)]
  exact ⟨rfl, rfl, rfl⟩

/-- Witness for `c7_fallback_ladder`: concrete all-500 ladder ends with
the empty frame and the three ladder requests. -/
theorem c7_fallback_ladder_witness :
    (devicePull "d" .noFiles
        [Resp.mk 400 false [], Resp.mk 500 false [], Resp.mk 500 false []] 0).df = emptyDF
    ∧ (devicePull "d" .noFiles
        [Resp.mk 400 false [], Resp.mk 500 false [], Resp.mk 500 false []] 0).persisted = none
    ∧ (devicePull "d" .noFiles
        [Resp.mk 400 false [], Resp.mk 500 false [], Resp.mk 500 false []] 0).reqs =
      [⟨limitPrimary, if (initCursor .noFiles 0).2 then some (initCursor .noFiles 0).1
          else none⟩,
       ⟨limitFallback, if (initCursor .noFiles 0).2 then some (initCursor .noFiles 0).1
          else none⟩,
       ⟨limitFallback, none⟩] :=
  c7_fallback_ladder "d" .noFiles 0 false 500 false 500 [] [] [] []
    (Or.inl (by decide)) (by decide)

/-! ### C9 — persisted per-device state -/

/-- An uplink carrying a DDS75 `Distance_mm` decoded payload. -/
def ddsObj : TTNObj :=
  ⟨some 5, none, some ⟨none, [⟨some 5, some (-80), some 9⟩], some 2,
    (.cons "Distance_mm" (Json.num 1000) .nil)⟩⟩

/-- A fresh-device pull of one page with one DDS75 record. -/
def ddsPull : PullResult :=
  devicePull "dds75-lb-001" .noFiles [Resp.mk 200 false [ddsObj]] 0

set_option maxRecDepth 10000 in
/-- C9, counterexample: the table persisted by `device_pull` has exactly
the six base columns — the derived normalized columns are NOT part of it.
The run ingests a `Distance_mm` record; the in-memory flatten+normalize
pass derives `distance_cm`, yet the persisted table's columns are just
`NEW_COLS`, which do not include `distance_cm`. -/
theorem c9_counterexample :
    ddsPull.persisted.map (fun p => p.cols) = some NEW_COLS
    ∧ "distance_cm" ∉ NEW_COLS
    ∧ "distance_cm" ∈ colNames (normalize_all (flatten_payload (toTable ddsPull.df.rows))) := by
  refine ⟨by decide, by decide, by decide⟩

/-- A non-empty merged frame always carries the base column list. -/
lemma mergedDF_cols {hist : HistRead} {newRows : List MRow}
    (h : (mergedDF hist newRows).rows ≠ []) : (mergedDF hist newRows).cols = NEW_COLS := by
  rcases hist with _ | _ | rows <;> simp only [mergedDF, histDF, dfOfRows] at h ⊢
  · by_cases he : newRows.isEmpty
    · rw [if_pos he] at h; simp at h
    · rw [if_neg he]
  · rw [if_neg (by simp)] at h ⊢
    by_cases he : newRows.isEmpty
    · rw [if_pos he] at h; simp at h
    · rw [if_neg he] at h ⊢
      rw [if_neg (by simpa using he)]
  · by_cases hc : ¬ (⟨NEW_COLS, rows⟩ : DF).rows.isEmpty = true ∧ ¬ newRows.isEmpty = true
    · rw [if_pos hc]
    · rw [if_neg hc] at h ⊢
      by_cases he : newRows.isEmpty
      · rw [if_pos he]
      · rw [if_neg he] at h ⊢
        rw [if_neg (by simpa using he)]

/-- C9, amended: the durable per-device table written by a run contains
exactly the base columns `received_at`, `device_id`, `f_port`, `rssi`,
`snr`, `payload_json`; normalized columns are derived in memory after
`device_pull` returns and are never written back. -/
theorem c9_persisted_columns :
    ∀ (dev : String) (hist : HistRead) (script : List Resp) (afterEnv : Nat) (p : DF),
      (devicePull dev hist script afterEnv).persisted = some p →
      p.cols = NEW_COLS ∧ "distance_cm" ∉ p.cols := by
  intro dev hist script afterEnv p h
  simp only [devicePull] at h
  split at h
  · cases h
  · split at h
    · cases h
    · rename_i hne
      injection h with h1
      have hcols : p.cols = NEW_COLS := by
        rw [← h1]
        exact mergedDF_cols (by simpa [List.isEmpty_iff] using hne)
      exact ⟨hcols, by rw [hcols]; decide⟩

/-- Witness for `c9_persisted_columns`: the concrete DDS75 run's persisted
table. -/
theorem c9_persisted_columns_witness :
    ∃ p, (devicePull "dds75-lb-001" .noFiles [Resp.mk 200 false [ddsObj]] 0).persisted
        = some p ∧ p.cols = NEW_COLS ∧ "distance_cm" ∉ p.cols := by
  refine ⟨⟨NEW_COLS, sortRows (dropDups [toRow "dds75-lb-001" ddsObj])⟩, by decide, ?_⟩
  exact c9_persisted_columns "dds75-lb-001" .noFiles [Resp.mk 200 false [ddsObj]] 0 _
    (by decide)

/-! ### C10 — totality of `device_pull` at its boundary -/

/-- C10, counterexample: a corrupted history file does NOT make
`device_pull` return an empty frame. With both history reads failing
(`readFail`) and a successful one-record page, the pull degrades to an
empty history and returns that record. -/
theorem c10_counterexample :
    (devicePull "d" .readFail [Resp.mk 200 false [sampleObj 5]] 0).df.rows
      = [toRow "d" (sampleObj 5)]
    ∧ (devicePull "d" .readFail [Resp.mk 200 false [sampleObj 5]] 0).df.rows ≠ [] := by
  refine ⟨by decide, by decide⟩

/-- `dropDups` of a non-empty row list is non-empty. -/
lemma dropDups_ne_nil {rows : List MRow} (h : rows ≠ []) : dropDups rows ≠ [] := by
  rcases rows with _ | ⟨r, rs⟩
  · exact absurd rfl h
  · unfold dropDups dedupKey
    rw [if_neg (by simp)]
    simp

/-- `sortRows` preserves emptiness. -/
lemma sortRows_eq_nil_iff {rows : List MRow} : sortRows rows = [] ↔ rows = [] := by
  constructor
  · intro h
    have hlen := List.length_insertionSort rowLe rows
    unfold sortRows at h
    rw [h] at hlen
    exact List.length_eq_zero.1 (by simpa using hlen.symm)
  · intro h; rw [h]; rfl

/-- C10, amended: `device_pull` is total at its boundary: on every fetch
failure (raised network error after retries, or a non-OK page) it returns
the empty frame with exactly the columns `device_id, received_at, f_port,
rssi, snr, payload_json`; every empty result IS that empty frame, so the
device loop sees status `"empty"`, never `"error"`, from `device_pull`
itself. A corrupted or missing history file is NOT a failure: it degrades
to an empty history and the pull proceeds. -/
theorem c10_total_boundary :
    (∀ (dev : String) (hist : HistRead) (script : List Resp) (afterEnv : Nat),
        (devicePull dev hist script afterEnv).loopRaised = true ∨
          (devicePull dev hist script afterEnv).loopErr = true →
        (devicePull dev hist script afterEnv).df = emptyDF)
    ∧ (∀ (dev : String) (hist : HistRead) (script : List Resp) (afterEnv : Nat),
        (devicePull dev hist script afterEnv).df.rows = [] →
        (devicePull dev hist script afterEnv).df = emptyDF ∧
          deviceStatus (devicePull dev hist script afterEnv).df = "empty")
    ∧ (∀ (dev : String) (hist : HistRead) (script : List Resp) (afterEnv : Nat),
        deviceStatus (devicePull dev hist script afterEnv).df ≠ "error")
    ∧ emptyDF.cols = ["device_id", "received_at", "f_port", "rssi", "snr", "payload_json"] := by
  have hdf : ∀ (dev : String) (hist : HistRead) (script : List Resp) (afterEnv : Nat),
      (devicePull dev hist script afterEnv).df = emptyDF ∨
      (devicePull dev hist script afterEnv).df.rows ≠ [] := by
    intro dev hist script afterEnv
    simp only [devicePull]
    split
    · exact Or.inl rfl
    · split
      · exact Or.inl rfl
      · right
        rename_i hne
        simp only
        intro habs
        exact dropDups_ne_nil (by simpa [List.isEmpty_iff] using hne)
          (sortRows_eq_nil_iff.1 habs)
  refine ⟨?_, ?_, ?_, rfl⟩
  · intro dev hist script afterEnv h
    revert h
    simp only [devicePull]
    split
    · intro _; rfl
    · intro h
      rcases h with h | h <;> (split at h <;> cases h)
  · intro dev hist script afterEnv h
    rcases hdf dev hist script afterEnv with he | hne
    · exact ⟨he, by rw [he] at h ⊢; simp [deviceStatus, h]⟩
    · exact absurd h hne
  · intro dev hist script afterEnv
    unfold deviceStatus
    split <;> decide

/-- Witness for `c10_total_boundary`: the all-failing ladder ends at the
empty frame with status `"empty"`. -/
theorem c10_total_boundary_witness :
    (devicePull "d" .noFiles [Resp.raise] 0).df = emptyDF
    ∧ deviceStatus (devicePull "d" .noFiles [Resp.raise] 0).df = "empty"
    ∧ deviceStatus (devicePull "d" .noFiles [Resp.raise] 0).df ≠ "error" := by
  refine ⟨?_, ?_, ?_⟩
  · exact c10_total_boundary.1 "d" .noFiles [Resp.raise] 0 (Or.inl (by decide))
  · exact (c10_total_boundary.2.1 "d" .noFiles [Resp.raise] 0 (by decide)).2
  · exact c10_total_boundary.2.2.1 "d" .noFiles [Resp.raise] 0

/-! ### C2 — merge idempotence -/

/-- The dedup-identity type. -/
abbrev RowKeyT := String × Option Nat × Option Nat × JsonObj

/-- The set of keys seen after scanning a row list, as `dedupKey` tracks it. -/
def seenAfter : List MRow → List RowKeyT → List RowKeyT
  | [], seen => seen
  | r :: rs, seen =>
    if rowKey r ∈ seen then seenAfter rs seen else seenAfter rs (rowKey r :: seen)

/-- Unfolding equation of `dedupKey` on a cons cell. -/
lemma dedupKey_cons (r : MRow) (rs : List MRow) (seen : List RowKeyT) :
    dedupKey (r :: rs) seen =
      if rowKey r ∈ seen then dedupKey rs seen
      else r :: dedupKey rs (rowKey r :: seen) := rfl

/-- Unfolding equation of `seenAfter` on a cons cell. -/
lemma seenAfter_cons (r : MRow) (rs : List MRow) (seen : List RowKeyT) :
    seenAfter (r :: rs) seen =
      if rowKey r ∈ seen then seenAfter rs seen
      else seenAfter rs (rowKey r :: seen) := rfl

/-- Every scanned row's key either survives dedup or was already seen. -/
lemma dedupKey_mem_keys :
    ∀ (l : List MRow) (seen : List RowKeyT) (x : MRow), x ∈ l →
      rowKey x ∈ (dedupKey l seen).map rowKey ∨ rowKey x ∈ seen := by
  intro l
  induction l with
  | nil => intro seen x hx; cases hx
  | cons r rs ih =>
    intro seen x hx
    unfold dedupKey
    by_cases h : rowKey r ∈ seen
    · rw [if_pos h]
      rcases List.mem_cons.1 hx with rfl | hxs
      · exact Or.inr h
      · exact ih seen x hxs
    · rw [if_neg h]
      rcases List.mem_cons.1 hx with rfl | hxs
      · exact Or.inl (by simp)
      · rcases ih (rowKey r :: seen) x hxs with h1 | h1
        · exact Or.inl (by simp [h1])
        · rcases List.mem_cons.1 h1 with h2 | h2
          · exact Or.inl (by simp [h2])
          · exact Or.inr h2

/-- Dedup output has pairwise-distinct keys, none of them seen before. -/
lemma dedupKey_nodup :
    ∀ (l : List MRow) (seen : List RowKeyT),
      ((dedupKey l seen).map rowKey).Nodup ∧
        ∀ k ∈ (dedupKey l seen).map rowKey, k ∉ seen := by
  intro l
  induction l with
  | nil => intro seen; exact ⟨List.nodup_nil, by simp [dedupKey]⟩
  | cons r rs ih =>
    intro seen
    unfold dedupKey
    by_cases h : rowKey r ∈ seen
    · rw [if_pos h]; exact ih seen
    · rw [if_neg h]
      rcases ih (rowKey r :: seen) with ⟨hnd, hns⟩
      constructor
      · rw [List.map_cons]
        refine List.nodup_cons.2 ⟨?_, hnd⟩
        intro habs
        exact (hns _ habs) (by simp)
      · intro k hk
        rw [List.map_cons] at hk
        rcases List.mem_cons.1 hk with rfl | hk2
        · exact h
        · intro habs
          exact (hns _ hk2) (List.mem_cons.2 (Or.inr habs))

/-- A list with distinct, unseen keys passes through dedup unchanged. -/
lemma dedupKey_eq_self :
    ∀ (l : List MRow) (seen : List RowKeyT),
      (l.map rowKey).Nodup → (∀ k ∈ l.map rowKey, k ∉ seen) → dedupKey l seen = l := by
  intro l
  induction l with
  | nil => intro seen _ _; rfl
  | cons r rs ih =>
    intro seen hnd hns
    unfold dedupKey
    rw [if_neg (hns _ (by simp))]
    rw [List.map_cons] at hnd hns
    congr 1
    refine ih _ (List.nodup_cons.1 hnd).2 ?_
    intro k hk
    intro habs
    rcases List.mem_cons.1 habs with rfl | h2
    · exact (List.nodup_cons.1 hnd).1 hk
    · exact hns k (List.mem_cons.2 (Or.inr hk)) h2

/-- Rows whose keys were all seen are dropped wholesale. -/
lemma dedupKey_all_seen :
    ∀ (l : List MRow) (seen : List RowKeyT),
      (∀ x ∈ l, rowKey x ∈ seen) → dedupKey l seen = [] := by
  intro l
  induction l with
  | nil => intro seen _; rfl
  | cons r rs ih =>
    intro seen h
    unfold dedupKey
    rw [if_pos (h r (by simp))]
    exact ih seen (fun x hx => h x (List.mem_cons.2 (Or.inr hx)))

/-- Dedup distributes over append via the seen-keys accumulator. -/
lemma dedupKey_append :
    ∀ (l₁ l₂ : List MRow) (seen : List RowKeyT),
      dedupKey (l₁ ++ l₂) seen = dedupKey l₁ seen ++ dedupKey l₂ (seenAfter l₁ seen) := by
  intro l₁
  induction l₁ with
  | nil => intro l₂ seen; rfl
  | cons r rs ih =>
    intro l₂ seen
    rw [List.cons_append, dedupKey_cons, dedupKey_cons, seenAfter_cons]
    by_cases h : rowKey r ∈ seen
    · rw [if_pos h, if_pos h, if_pos h]
      exact ih l₂ seen
    · rw [if_neg h, if_neg h, if_neg h, List.cons_append]
      congr 1
      exact ih l₂ (rowKey r :: seen)

/-- Accumulated seen keys contain the old ones and all scanned keys. -/
lemma seenAfter_mem_of :
    ∀ (l : List MRow) (seen : List RowKeyT) (k : RowKeyT),
      (k ∈ seen ∨ k ∈ l.map rowKey) → k ∈ seenAfter l seen := by
  intro l
  induction l with
  | nil =>
    intro seen k h
    rcases h with h | h
    · exact h
    · cases h
  | cons r rs ih =>
    intro seen k h
    unfold seenAfter
    by_cases hr : rowKey r ∈ seen
    · rw [if_pos hr]
      rcases h with h | h
      · exact ih seen k (Or.inl h)
      · rw [List.map_cons] at h
        rcases List.mem_cons.1 h with rfl | h2
        · exact ih seen _ (Or.inl hr)
        · exact ih seen k (Or.inr h2)
    · rw [if_neg hr]
      rcases h with h | h
      · exact ih _ k (Or.inl (List.mem_cons.2 (Or.inr h)))
      · rw [List.map_cons] at h
        rcases List.mem_cons.1 h with rfl | h2
        · exact ih _ _ (Or.inl (by simp))
        · exact ih _ k (Or.inr h2)

/-- C2: the history merge — concatenate old and new, dedup on the
identity tuple `(device_id, received_at, f_port, payload_json)` keeping
the first occurrence, sort ascending by `received_at` — is idempotent:
merging the same batch twice equals merging it once. -/
theorem c2_merge_idempotent :
    ∀ (H B : List MRow), mergeHist (mergeHist H B) B = mergeHist H B := by
  intro H B
  have hperm : List.Perm (mergeHist H B) (dropDups (H ++ B)) :=
    List.perm_insertionSort rowLe _
  have hsorted : List.Sorted rowLe (mergeHist H B) :=
    List.sorted_insertionSort rowLe _
  have hnodup : ((mergeHist H B).map rowKey).Nodup := by
    have h2 := (dedupKey_nodup (H ++ B) []).1
    exact ((hperm.map rowKey).nodup_iff).2 h2
  have hBkeys : ∀ b ∈ B, rowKey b ∈ (mergeHist H B).map rowKey := by
    intro b hb
    rcases dedupKey_mem_keys (H ++ B) [] b (List.mem_append_right _ hb) with h | h
    · exact ((hperm.map rowKey).mem_iff).2 h
    · cases h
  have hdd : dropDups (mergeHist H B ++ B) = mergeHist H B := by
    unfold dropDups
    rw [dedupKey_append]
    have h1 : dedupKey (mergeHist H B) [] = mergeHist H B :=
      dedupKey_eq_self _ [] hnodup (by simp)
    have h2 : dedupKey B (seenAfter (mergeHist H B) []) = [] := by
      refine dedupKey_all_seen _ _ ?_
      intro b hb
      exact seenAfter_mem_of _ _ _ (Or.inr (hBkeys b hb))
    rw [h1, h2, List.append_nil]
  show sortRows (dropDups (mergeHist H B ++ B)) = mergeHist H B
  rw [hdd]
  exact hsorted.insertionSort_eq

/-! ### C1 — watermark monotonicity -/

/-- A scripted response that does not trigger the 400 fallback ladder. -/
def no400 : Resp → Prop
  | .raise => True
  | .mk s _ _ => s ≠ 400

instance : DecidablePred no400 := fun r =>
  match r with
  | .raise => isTrue trivial
  | .mk s _ _ => if h : s = 400 then isFalse (fun hne => hne h) else isTrue h

/-- The storage API's `after` filter contract for one processed page:
every parseable timestamp of a returned record is at or after the
request's `after` cursor. -/
def pageContract (p : Req × List TTNObj) : Prop :=
  ∀ a, p.1.after = some a → ∀ o ∈ p.2, ∀ t, bestTs o = some t → a ≤ t

/-- Every timestamp folded into the running max is bounded by it, and so
is the initial accumulator. -/
lemma maxStep_fold_le :
    ∀ (objs : List TTNObj) (acc : Option Nat) (m : Nat),
      objs.foldl maxStep acc = some m →
      (∀ t0, acc = some t0 → t0 ≤ m) ∧ (∀ o ∈ objs, ∀ t, bestTs o = some t → t ≤ m) := by
  intro objs
  induction objs with
  | nil =>
    intro acc m h
    refine ⟨?_, ?_⟩
    · intro t0 h0
      rw [List.foldl_nil, h0] at h
      injection h with h
      omega
    · intro o ho; cases ho
  | cons o os ih =>
    intro acc m h
    rw [List.foldl_cons] at h
    rcases ih (maxStep acc o) m h with ⟨h1, h2⟩
    constructor
    · intro t0 h0
      rcases hb : bestTs o with _ | t
      · exact h1 t0 (by unfold maxStep; rw [hb, h0])
      · have hstep : maxStep acc o = some (if t > t0 then t else t0) := by
          unfold maxStep; rw [hb, h0]
        have h3 := h1 _ hstep
        by_cases hgt : t > t0
        · rw [if_pos hgt] at h3; omega
        · rw [if_neg hgt] at h3; omega
    · intro o' ho' t ht
      rcases List.mem_cons.1 ho' with rfl | hos
      · rcases hacc : acc with _ | t0
        · exact h1 t (by unfold maxStep; rw [ht, hacc])
        · have hstep : maxStep acc o' = some (if t > t0 then t else t0) := by
            unfold maxStep; rw [ht, hacc]
          have h3 := h1 _ hstep
          by_cases hgt : t > t0
          · rw [if_pos hgt] at h3; omega
          · rw [if_neg hgt] at h3; omega
      · exact h2 o' hos t ht

/-- Every page timestamp is bounded by the page max. -/
lemma batchMaxTs_le {objs : List TTNObj} {m : Nat} (h : batchMaxTs objs = some m) :
    ∀ o ∈ objs, ∀ t, bestTs o = some t → t ≤ m :=
  (maxStep_fold_le objs none m h).2

/-- A defined page max is attained by some record of the page. -/
lemma maxStep_fold_mem :
    ∀ (objs : List TTNObj) (acc : Option Nat) (m : Nat),
      objs.foldl maxStep acc = some m →
      acc = some m ∨ ∃ o ∈ objs, bestTs o = some m := by
  intro objs
  induction objs with
  | nil => intro acc m h; exact Or.inl (by simpa using h)
  | cons o os ih =>
    intro acc m h
    rw [List.foldl_cons] at h
    rcases ih (maxStep acc o) m h with h1 | h1
    · rcases hb : bestTs o with _ | t
      · left
        rw [← h1]
        unfold maxStep
        rw [hb]
      · rcases hacc : acc with _ | t0
        · right
          refine ⟨o, by simp, ?_⟩
          rw [hb]
          simp only [maxStep, hb, hacc] at h1
          exact h1
        · simp only [maxStep, hb, hacc] at h1
          by_cases hgt : t > t0
          · rw [if_pos hgt] at h1
            exact Or.inr ⟨o, by simp, by rw [hb, h1]⟩
          · rw [if_neg hgt] at h1
            exact Or.inl h1
    · rcases h1 with ⟨o', ho', hbo'⟩
      exact Or.inr ⟨o', List.mem_cons.2 (Or.inr ho'), hbo'⟩

/-- A defined page max is the timestamp of some record. -/
lemma batchMaxTs_mem {objs : List TTNObj} {m : Nat} (h : batchMaxTs objs = some m) :
    ∃ o ∈ objs, bestTs o = some m := by
  rcases maxStep_fold_mem objs none m h with h1 | h1
  · cases h1
  · exact h1

/-- One unfolding of the paging loop without 400s: it either processes
nothing, processes one final page, or processes one full page and
recurses with the cursor at the page max plus one second. -/
lemma pullLoop_struct (dev : String) (fuel : Nat) (script : List Resp) (a : Nat) (u : Bool)
    (hok : ∀ r ∈ script, no400 r) :
    ((pullLoop dev (fuel + 1) script a u).pages = []
      ∧ (pullLoop dev (fuel + 1) script a u).rows = [])
    ∨ (∃ objs, objs ≠ [] ∧
        (pullLoop dev (fuel + 1) script a u).pages
          = [(⟨limitPrimary, if u then some a else none⟩, objs)] ∧
        (pullLoop dev (fuel + 1) script a u).rows = objs.map (toRow dev))
    ∨ (∃ objs m rest2, objs ≠ [] ∧ batchMaxTs objs = some m ∧
        (∀ r ∈ rest2, no400 r) ∧
        (pullLoop dev (fuel + 1) script a u).pages
          = (⟨limitPrimary, if u then some a else none⟩, objs)
              :: (pullLoop dev fuel rest2 (m + 1) true).pages ∧
        (pullLoop dev (fuel + 1) script a u).rows
          = objs.map (toRow dev) ++ (pullLoop dev fuel rest2 (m + 1) true).rows) := by
  rcases script with _ | ⟨r, rest⟩
  · exact Or.inl ⟨rfl, rfl⟩
  · rcases r with _ | ⟨s, eb, objs⟩
    · exact Or.inl ⟨rfl, rfl⟩
    · have hs400 : ¬ (s = 400) := by
        have := hok (Resp.mk s eb objs) (by simp)
        simpa [no400] using this
      simp only [pullLoop]
      rw [if_neg hs400]
      unfold processPage
      by_cases h204 : s = 204 ∨ eb = true
      · rw [if_pos h204]; exact Or.inl ⟨rfl, rfl⟩
      · rw [if_neg h204]
        by_cases hko : ¬ respOk s = true
        · rw [if_pos hko]; exact Or.inl ⟨rfl, rfl⟩
        · rw [if_neg hko]
          by_cases hemp : objs.isEmpty = true
          · rw [if_pos hemp]; exact Or.inl ⟨rfl, rfl⟩
          · rw [if_neg hemp]
            have hne : objs ≠ [] := by simpa [List.isEmpty_iff] using hemp
            rcases hm : batchMaxTs objs with _ | m
            · simp only [hm]
              exact Or.inr (Or.inl ⟨objs, hne, rfl, rfl⟩)
            · simp only [hm]
              by_cases hlen : objs.length < limitPrimary
              · rw [if_pos hlen]
                exact Or.inr (Or.inl ⟨objs, hne, rfl, rfl⟩)
              · rw [if_neg hlen]
                exact Or.inr (Or.inr ⟨objs, m, rest, hne, hm,
                  fun r hr => hok r (by simp [hr]), rfl, rfl⟩)

/-- The first processed page of a loop run was requested with the
initial cursor state. -/
lemma pullLoop_pages_head (dev : String) :
    ∀ (fuel : Nat) (script : List Resp) (a : Nat) (u : Bool),
      (∀ r ∈ script, no400 r) →
      ∀ p ps, (pullLoop dev fuel script a u).pages = p :: ps →
        p.1 = ⟨limitPrimary, if u then some a else none⟩ := by
  intro fuel script a u hok p ps hp
  cases fuel with
  | zero => simp [pullLoop, raisedOut] at hp
  | succ fuel =>
    rcases pullLoop_struct dev fuel script a u hok with ⟨h1, _⟩ | ⟨objs, _, h1, _⟩ |
      ⟨objs, m, rest2, _, _, _, h1, _⟩
    · rw [h1] at hp; cases hp
    · rw [h1] at hp
      injection hp with h2 _
      rw [← h2]
    · rw [h1] at hp
      injection hp with h2 _
      rw [← h2]

/-- C1 part: after every page that triggers a next request, the next
request's cursor is the page max plus one second. -/
lemma pullLoop_chain (dev : String) :
    ∀ (fuel : Nat) (script : List Resp) (a : Nat) (u : Bool),
      (∀ r ∈ script, no400 r) →
      List.Chain' (fun p q => ∃ m, batchMaxTs p.2 = some m ∧ q.1.after = some (m + 1))
        (pullLoop dev fuel script a u).pages := by
  intro fuel
  induction fuel with
  | zero => intro script a u hok; simp [pullLoop, raisedOut]
  | succ fuel ih =>
    intro script a u hok
    rcases pullLoop_struct dev fuel script a u hok with ⟨h1, _⟩ | ⟨objs, _, h1, _⟩ |
      ⟨objs, m, rest2, hne, hm, hokr, h1, _⟩
    · rw [h1]; exact List.chain'_nil
    · rw [h1]; exact List.chain'_singleton _
    · rw [h1]
      rw [List.chain'_cons']
      constructor
      · intro q hq
        rcases hpg : (pullLoop dev fuel rest2 (m + 1) true).pages with _ | ⟨q0, ps⟩
        · rw [hpg] at hq; simp at hq
        · rw [hpg] at hq
          simp only [List.head?_cons, Option.mem_some_iff] at hq
          subst hq
          have hh := pullLoop_pages_head dev fuel rest2 (m + 1) true hokr q0 ps hpg
          exact ⟨m, hm, by rw [hh]; rfl⟩
      · exact ih rest2 (m + 1) true hokr

/-- Under the server's `after` contract, a loop started with an active
cursor `a` only sees cursors and row timestamps at or after `a`. -/
lemma pullLoop_lb (dev : String) :
    ∀ (fuel : Nat) (script : List Resp) (a : Nat),
      (∀ r ∈ script, no400 r) →
      (∀ p ∈ (pullLoop dev fuel script a true).pages, pageContract p) →
      (∀ p ∈ (pullLoop dev fuel script a true).pages, ∀ a', p.1.after = some a' → a ≤ a')
      ∧ (∀ r ∈ (pullLoop dev fuel script a true).rows, ∀ t, r.received_at = some t → a ≤ t) := by
  intro fuel
  induction fuel with
  | zero =>
    intro script a hok hc
    constructor <;> intro x hx <;> simp [pullLoop, raisedOut] at hx
  | succ fuel ih =>
    intro script a hok hc
    rcases pullLoop_struct dev fuel script a true hok with ⟨h1, h2⟩ | ⟨objs, hne, h1, h2⟩ |
      ⟨objs, m, rest2, hne, hm, hokr, h1, h2⟩
    · rw [h1, h2]
      constructor <;> intro x hx <;> cases hx
    · rw [h1] at hc
      have hcp : pageContract (⟨limitPrimary, if true then some a else none⟩, objs) :=
        hc _ (by simp)
      rw [h1, h2]
      constructor
      · intro p hp a' ha'
        rcases List.mem_singleton.1 hp with rfl
        have : a' = a := by
          simpa using ha'.symm
        omega
      · intro r hr t ht
        rcases List.mem_map.1 hr with ⟨o, ho, rfl⟩
        exact hcp a rfl o ho t ht
    · rw [h1] at hc
      have hcp : pageContract (⟨limitPrimary, if true then some a else none⟩, objs) :=
        hc _ (by simp)
      have hma : a ≤ m := by
        rcases batchMaxTs_mem hm with ⟨o, ho, hbo⟩
        exact hcp a rfl o ho m hbo
      have hctail : ∀ p ∈ (pullLoop dev fuel rest2 (m + 1) true).pages, pageContract p := by
        intro p hp
        exact hc p (by simp [hp])
      rcases ih rest2 (m + 1) hokr hctail with ⟨ihp, ihr⟩
      rw [h1, h2]
      constructor
      · intro p hp a' ha'
        rcases List.mem_cons.1 hp with rfl | hp2
        · have : a' = a := by simpa using ha'.symm
          omega
        · have := ihp p hp2 a' ha'
          omega
      · intro r hr t ht
        rcases List.mem_append.1 hr with hr1 | hr2
        · rcases List.mem_map.1 hr1 with ⟨o, ho, rfl⟩
          exact hcp a rfl o ho t ht
        · have := ihr r hr2 t ht
          omega

/-- C1 part: cursors dominate everything seen before them — every later
request's cursor exceeds every timestamp of every earlier page. -/
lemma pullLoop_pairwise (dev : String) :
    ∀ (fuel : Nat) (script : List Resp) (a : Nat) (u : Bool),
      (∀ r ∈ script, no400 r) →
      (∀ p ∈ (pullLoop dev fuel script a u).pages, pageContract p) →
      List.Pairwise (fun p q => ∀ o ∈ p.2, ∀ t, bestTs o = some t →
        ∀ a', q.1.after = some a' → t < a') (pullLoop dev fuel script a u).pages := by
  intro fuel
  induction fuel with
  | zero => intro script a u hok hc; simp [pullLoop, raisedOut]
  | succ fuel ih =>
    intro script a u hok hc
    rcases pullLoop_struct dev fuel script a u hok with ⟨h1, _⟩ | ⟨objs, _, h1, _⟩ |
      ⟨objs, m, rest2, hne, hm, hokr, h1, _⟩
    · rw [h1]; exact List.Pairwise.nil
    · rw [h1]; exact List.pairwise_singleton _ _
    · rw [h1] at hc
      have hctail : ∀ p ∈ (pullLoop dev fuel rest2 (m + 1) true).pages, pageContract p := by
        intro p hp
        exact hc p (by simp [hp])
      rw [h1]
      refine List.Pairwise.cons ?_ (ih rest2 (m + 1) true hokr hctail)
      intro q hq o ho t ht a' ha'
      have hlb := (pullLoop_lb dev fuel rest2 (m + 1) hokr hctail).1 q hq a' ha'
      have hle := batchMaxTs_le hm o ho t ht
      omega

/-- The pages of a pull are exactly the pages of its loop. -/
lemma devicePull_pages (dev : String) (hist : HistRead) (script : List Resp)
    (afterEnv : Nat) :
    (devicePull dev hist script afterEnv).pages =
      (pullLoop dev (script.length + 1) script (initCursor hist afterEnv).1
        (initCursor hist afterEnv).2).pages := by
  simp only [devicePull]
  split
  · rfl
  · split <;> rfl

/-- `List.max?` bounds every member. -/
lemma max?_ge_mem : ∀ (l : List Nat) (m : Nat), l.max? = some m → ∀ x ∈ l, x ≤ m := by
  have hfold : ∀ (xs : List Nat) (acc : Nat),
      acc ≤ xs.foldl Nat.max acc ∧ ∀ x ∈ xs, x ≤ xs.foldl Nat.max acc := by
    intro xs
    induction xs with
    | nil => intro acc; exact ⟨Nat.le_refl _, by intro x hx; cases hx⟩
    | cons y ys ih =>
      intro acc
      rw [List.foldl_cons]
      rcases ih (Nat.max acc y) with ⟨h1, h2⟩
      refine ⟨Nat.le_trans (Nat.le_max_left _ _) h1, ?_⟩
      intro x hx
      rcases List.mem_cons.1 hx with rfl | hx2
      · exact Nat.le_trans (Nat.le_max_right acc x) h1
      · exact h2 x hx2
  intro l m h x hx
  rcases l with _ | ⟨y, ys⟩
  · cases hx
  · have hm : ys.foldl Nat.max y = m := by
      simpa [List.max?] using h
    rcases List.mem_cons.1 hx with rfl | hx2
    · rw [← hm]; exact (hfold ys x).1
    · rw [← hm]; exact (hfold ys y).2 x hx2

/-- Every stored timestamp is at or below the history watermark. -/
lemma histMaxTs_ge {H : List MRow} {m : Nat} (h : histMaxTs H = some m) :
    ∀ r ∈ H, ∀ t, r.received_at = some t → t ≤ m := by
  intro r hr t ht
  refine max?_ge_mem _ m h t ?_
  exact List.mem_filterMap.2 ⟨r, hr, ht⟩

/-- C1: watermark monotonicity. (a) After every processed page that
triggers a next request, that request's `after` equals the page max plus
one second. (b) Under the server's `after` contract and without 400
fallbacks, every later request's cursor strictly exceeds every timestamp
seen on every earlier page (so cursors are strictly increasing and
always at least the max seen so far plus one second). (c) A run resumed
from a persisted history with watermark `m` never re-ingests a stored
record: every new row's identity differs from every stored row's. -/
theorem c1_watermark :
    (∀ (dev : String) (fuel : Nat) (script : List Resp) (a : Nat) (u : Bool),
        (∀ r ∈ script, no400 r) →
        List.Chain' (fun p q => ∃ m, batchMaxTs p.2 = some m ∧ q.1.after = some (m + 1))
          (pullLoop dev fuel script a u).pages)
    ∧ (∀ (dev : String) (fuel : Nat) (script : List Resp) (a : Nat) (u : Bool),
        (∀ r ∈ script, no400 r) →
        (∀ p ∈ (pullLoop dev fuel script a u).pages, pageContract p) →
        List.Pairwise (fun p q => ∀ o ∈ p.2, ∀ t, bestTs o = some t →
          ∀ a', q.1.after = some a' → t < a') (pullLoop dev fuel script a u).pages)
    ∧ (∀ (dev : String) (H : List MRow) (script : List Resp) (afterEnv m : Nat),
        histMaxTs H = some m →
        (∀ r ∈ script, no400 r) →
        (∀ p ∈ (devicePull dev (.ok H) script afterEnv).pages, pageContract p) →
        ∀ r ∈ (devicePull dev (.ok H) script afterEnv).newRows,
          ∀ h ∈ H, rowKey r ≠ rowKey h) := by
  refine ⟨pullLoop_chain, pullLoop_pairwise, ?_⟩
  intro dev H script afterEnv m hm hok hc r hr h hh hkey
  have hinit : initCursor (.ok H) afterEnv = (Nat.max afterEnv (m + 1), true) := by
    simp [initCursor, hm]
  rcases devicePull_newRows dev (.ok H) script afterEnv with hnr | hnr
  · rw [hnr] at hr; cases hr
  · rw [hnr] at hr
    have hr2 := (List.mem_insertionSort rowLe).1 hr
    rcases List.mem_filter.1 hr2 with ⟨hrows, hsome⟩
    rcases Option.isSome_iff_exists.1 (by exact hsome) with ⟨t, ht⟩
    have hcpages : ∀ p ∈ (pullLoop dev (script.length + 1) script
        (initCursor (.ok H) afterEnv).1 (initCursor (.ok H) afterEnv).2).pages,
        pageContract p := by
      intro p hp
      refine hc p ?_
      rw [devicePull_pages]
      exact hp
    rw [hinit] at hcpages hrows
    have hlb := (pullLoop_lb dev (script.length + 1) script (Nat.max afterEnv (m + 1))
      hok hcpages).2 r hrows t ht
    have hth : t > m := by
      have : m + 1 ≤ Nat.max afterEnv (m + 1) := Nat.le_max_right _ _
      omega
    have hts : r.received_at = h.received_at := congrArg (fun k => k.2.1) hkey
    rcases hh2 : h.received_at with _ | t'
    · rw [ht, hh2] at hts; cases hts
    · have := histMaxTs_ge hm h hh t' hh2
      rw [ht, hh2] at hts
      injection hts with hts
      omega

/-- Witness for `c1_watermark`: all three parts applied to concrete
one-page runs with the contract hypotheses discharged. -/
theorem c1_watermark_witness :
    List.Chain' (fun p q => ∃ m, batchMaxTs p.2 = some m ∧ q.1.after = some (m + 1))
      (pullLoop "d" 2 [Resp.mk 200 false [sampleObj 5]] 0 false).pages
    ∧ List.Pairwise (fun p q => ∀ o ∈ p.2, ∀ t, bestTs o = some t →
        ∀ a', q.1.after = some a' → t < a')
        (pullLoop "d" 2 [Resp.mk 200 false [sampleObj 5]] 0 false).pages
    ∧ (∀ r ∈ (devicePull "d" (.ok [histRow]) [Resp.mk 200 false [sampleObj 10]] 0).newRows,
        ∀ h ∈ [histRow], rowKey r ≠ rowKey h) := by
  have hok1 : ∀ r ∈ [Resp.mk 200 false [sampleObj 5]], no400 r := by decide
  have hpages1 : (pullLoop "d" 2 [Resp.mk 200 false [sampleObj 5]] 0 false).pages
      = [(⟨limitPrimary, none⟩, [sampleObj 5])] := by decide
  have hc1 : ∀ p ∈ (pullLoop "d" 2 [Resp.mk 200 false [sampleObj 5]] 0 false).pages,
      pageContract p := by
    intro p hp
    rw [hpages1] at hp
    rcases List.mem_singleton.1 hp with rfl
    intro a ha
    cases ha
  have hok2 : ∀ r ∈ [Resp.mk 200 false [sampleObj 10]], no400 r := by decide
  have hpages2 : (devicePull "d" (.ok [histRow]) [Resp.mk 200 false [sampleObj 10]] 0).pages
      = [(⟨limitPrimary, some 6⟩, [sampleObj 10])] := by decide
  have hc2 : ∀ p ∈ (devicePull "d" (.ok [histRow])
      [Resp.mk 200 false [sampleObj 10]] 0).pages, pageContract p := by
    intro p hp
    rw [hpages2] at hp
    rcases List.mem_singleton.1 hp with rfl
    intro a ha o ho t ht
    rcases List.mem_singleton.1 ho with rfl
    have ha' : a = 6 := by simpa using ha.symm
    have ht' : t = 10 := by
      have : bestTs (sampleObj 10) = some 10 := by decide
      rw [this] at ht
      simpa using ht.symm
    omega
  refine ⟨c1_watermark.1 "d" 2 [Resp.mk 200 false [sampleObj 5]] 0 false hok1,
    c1_watermark.2.1 "d" 2 [Resp.mk 200 false [sampleObj 5]] 0 false hok1 hc1,
    c1_watermark.2.2 "d" [histRow] [Resp.mk 200 false [sampleObj 10]] 0 5
      (by decide) hok2 hc2⟩

/-! ### C4 — normalization is non-destructive and idempotent -/

/-- A column that `pd.to_numeric(..., errors="ignore")` leaves unchanged
whenever it is object-dtyped. -/
def colStable (col : List Cell) : Prop :=
  col.any isObjCell = true → toNumericIgnoreCol col = col

/-- Tables whose non-`device_id` columns are all stable under the
generic numeric-casting pass. -/
def PStable (df : Table) : Prop :=
  ∀ p ∈ df, p.1 ≠ "device_id" → colStable p.2

/-- Unfolding equation of `parseAll` on a cons cell. -/
lemma parseAll_cons (c : Cell) (cs : List Cell) :
    parseAll (c :: cs) =
      match parseCell c, parseAll cs with
      | some c2, some cs2 => some (c2 :: cs2)
      | _, _ => none := rfl

/-- Parsing an already-parsed cell is the identity. -/
lemma parseCell_idem {c c' : Cell} (h : parseCell c = some c') : parseCell c' = some c' := by
  rcases c with q | s | b | _ | j
  · simp only [parseCell] at h
    injection h with h
    rw [← h]
    rfl
  · simp only [parseCell] at h
    rcases h1 : strToRat? s with _ | q
    · rw [h1] at h; cases h
    · rw [h1] at h
      simp only [Option.map_some'] at h
      injection h with h
      rw [← h]
      rfl
  · simp only [parseCell] at h
    injection h with h
    rw [← h]
    rfl
  · simp only [parseCell] at h
    injection h with h
    rw [← h]
    rfl
  · simp only [parseCell] at h
    cases h

/-- Re-parsing a fully parsed column is the identity. -/
lemma parseAll_idem : ∀ {col col2 : List Cell}, parseAll col = some col2 →
    parseAll col2 = some col2 := by
  intro col
  induction col with
  | nil =>
    intro col2 h
    rw [show parseAll [] = some [] from rfl] at h
    injection h with h
    rw [← h]
    rfl
  | cons c cs ih =>
    intro col2 h
    rw [parseAll_cons] at h
    rcases h1 : parseCell c with _ | c2 <;> rw [h1] at h
    · exact Option.noConfusion h
    · rcases h2 : parseAll cs with _ | cs2 <;> rw [h2] at h
      · exact Option.noConfusion h
      · have h' : c2 :: cs2 = col2 := by injection h
        rw [← h']
        rw [parseAll_cons, parseCell_idem h1, ih h2]

/-- The converted column is itself conversion-stable. -/
lemma toNumericIgnoreCol_stable (col : List Cell) : colStable (toNumericIgnoreCol col) := by
  intro _
  rcases h : parseAll col with _ | col2
  · simp only [toNumericIgnoreCol, h]
  · simp only [toNumericIgnoreCol, h, parseAll_idem h]

/-- One unparseable member fails the whole column conversion. -/
lemma parseAll_of_fail : ∀ {col : List Cell} {c : Cell}, c ∈ col → parseCell c = none →
    parseAll col = none := by
  intro col
  induction col with
  | nil => intro c hc; cases hc
  | cons d ds ih =>
    intro c hc hfail
    rcases List.mem_cons.1 hc with rfl | hc2
    · simp only [parseAll, hfail]
    · rcases h1 : parseCell d with _ | d2
      · simp only [parseAll, h1]
      · simp only [parseAll, h1, ih hc2 hfail]

/-- A column containing an unparseable cell is trivially stable. -/
lemma colStable_of_fail {col : List Cell} {c : Cell} (hc : c ∈ col)
    (hfail : parseCell c = none) : colStable col := by
  intro _
  unfold toNumericIgnoreCol
  rw [parseAll_of_fail hc hfail]

/-- Coercion twice is coercion once. -/
lemma coerceCell_idem (c : Cell) : coerceCell (coerceCell c) = coerceCell c := by
  rcases c with q | s | b | _ | j <;> simp [coerceCell, parseCell]
  rcases h : strToRat? s with _ | q <;> simp [h, parseCell]

/-- Coerced cells are never object-dtyped. -/
lemma coerced_not_obj (c : Cell) : isObjCell (coerceCell c) = false := by
  rcases c with q | s | b | _ | j <;> simp [coerceCell, parseCell, isObjCell]
  rcases h : strToRat? s with _ | q <;> simp [h, isObjCell]

/-- A coerced column is stable. -/
lemma colStable_coerced (col : List Cell) : colStable (col.map coerceCell) := by
  intro h
  rcases List.any_eq_true.1 h with ⟨c, hc, hobj⟩
  rcases List.mem_map.1 hc with ⟨c0, _, rfl⟩
  rw [coerced_not_obj c0] at hobj
  cases hobj

/-- An all-NaN/numeric empty column is stable. -/
lemma colStable_nil : colStable ([] : List Cell) := by
  intro h
  cases h

/-- `hasCol` on a cons cell. -/
lemma hasCol_cons {p : String × List Cell} {rest : Table} {c : String} :
    hasCol (p :: rest) c = ((p.1 == c) || hasCol rest c) := by
  unfold hasCol colNames
  rw [List.map_cons, List.contains_cons]
  congr 1
  by_cases h : p.1 = c
  · rw [h]
  · have h1 : (c == p.1) = false := by
      simp only [beq_eq_false_iff_ne, ne_eq]
      exact fun habs => h habs.symm
    have h2 : (p.1 == c) = false := by
      simp only [beq_eq_false_iff_ne, ne_eq]
      exact h
    rw [h1, h2]

/-- Setting an absent column appends it. -/
lemma setCol_absent {df : Table} {c : String} {col : List Cell}
    (h : hasCol df c = false) : setCol df c col = df ++ [(c, col)] := by
  induction df with
  | nil => rfl
  | cons p rest ih =>
    rw [hasCol_cons] at h
    rcases Bool.or_eq_false_iff.1 h with ⟨h1, h2⟩
    unfold setCol assocSet
    rw [if_neg (by simpa using h1)]
    rw [List.cons_append]
    congr 1
    exact ih h2

/-- Membership after `setCol`: an old pair or the new binding. -/
lemma mem_setCol {df : Table} {c x : String} {col colx : List Cell}
    (h : (x, colx) ∈ setCol df c col) : (x, colx) ∈ df ∨ (x, colx) = (c, col) := by
  induction df with
  | nil =>
    unfold setCol assocSet at h
    rcases List.mem_singleton.1 h with h1
    exact Or.inr h1
  | cons p rest ih =>
    unfold setCol assocSet at h
    by_cases hpc : p.1 = c
    · rw [if_pos (by simpa using hpc)] at h
      rcases List.mem_cons.1 h with h1 | h1
      · exact Or.inr h1
      · exact Or.inl (List.mem_cons.2 (Or.inr h1))
    · rw [if_neg (by simpa using hpc)] at h
      rcases List.mem_cons.1 h with h1 | h1
      · exact Or.inl (List.mem_cons.2 (Or.inl h1))
      · rcases ih h1 with h2 | h2
        · exact Or.inl (List.mem_cons.2 (Or.inr h2))
        · exact Or.inr h2

/-- Column names after `setCol`. -/
lemma hasCol_setCol {df : Table} {c x : String} {col : List Cell} :
    hasCol (setCol df c col) x = (hasCol df x || (x == c)) := by
  induction df with
  | nil =>
    show hasCol [(c, col)] x = (hasCol [] x || (x == c))
    rw [hasCol_cons]
    have h0 : hasCol ([] : Table) x = false := rfl
    rw [h0, Bool.or_false, Bool.false_or]
    by_cases h : x = c
    · rw [h]
    · have h1 : (c == x) = false := by
        simp only [beq_eq_false_iff_ne, ne_eq]
        exact fun habs => h habs.symm
      have h2 : (x == c) = false := by
        simp only [beq_eq_false_iff_ne, ne_eq]
        exact h
      rw [h1, h2]
  | cons p rest ih =>
    show hasCol (assocSet (p :: rest) c col) x = _
    unfold assocSet
    by_cases hpc : p.1 = c
    · rw [if_pos (by simpa using hpc)]
      rw [hasCol_cons, hasCol_cons]
      by_cases hx : x = c
      · have hcx : (c == x) = true := by simp [hx]
        have hpx : (p.1 == x) = true := by simp [hpc, hx]
        have hxc : (x == c) = true := by simp [hx]
        rw [hcx, hpx, hxc]
        simp
      · have h1 : (c == x) = false := by
          simp only [beq_eq_false_iff_ne, ne_eq]
          exact fun habs => hx habs.symm
        have h2 : (p.1 == x) = false := by
          rw [hpc]
          exact h1
        have h3 : (x == c) = false := by
          simp only [beq_eq_false_iff_ne, ne_eq]
          exact hx
        rw [h1, h2, h3]
        simp
    · rw [if_neg (by simpa using hpc)]
      rw [hasCol_cons, hasCol_cons]
      have ih' : hasCol (assocSet rest c col) x = (hasCol rest x || (x == c)) := ih
      rw [ih']
      cases p.1 == x <;> simp

/-- Reading the freshly set column. -/
lemma getCol_setCol_self {df : Table} {c : String} {col : List Cell} :
    getCol (setCol df c col) c = some col := by
  induction df with
  | nil => simp [setCol, assocSet, getCol, assocGet, List.find?]
  | cons p rest ih =>
    unfold setCol assocSet
    by_cases hpc : p.1 = c
    · rw [if_pos (by simpa using hpc)]
      simp [getCol, assocGet, List.find?]
    · rw [if_neg (by simpa using hpc)]
      unfold getCol assocGet at ih ⊢
      rw [List.find?_cons_of_neg _ (by simpa using hpc)]
      exact ih

/-- Reading any other column after `setCol`. -/
lemma getCol_setCol_other {df : Table} {c x : String} {col : List Cell} (h : x ≠ c) :
    getCol (setCol df c col) x = getCol df x := by
  induction df with
  | nil =>
    have hcx : ((c, col).1 == x) = false := by
      simp only [beq_eq_false_iff_ne, ne_eq]
      exact fun habs => h habs.symm
    show assocGet [(c, col)] x = assocGet [] x
    unfold assocGet
    rw [List.find?_cons_of_neg _ (by rw [hcx]; exact Bool.false_ne_true)]
  | cons p rest ih =>
    unfold setCol assocSet
    by_cases hpc : p.1 = c
    · rw [if_pos (by simpa using hpc)]
      unfold getCol assocGet
      rw [List.find?_cons_of_neg _ (by
          simp
          intro habs
          exact h habs.symm),
        List.find?_cons_of_neg _ (by
          simp
          rw [hpc]
          intro habs
          exact h habs.symm)]
    · rw [if_neg (by simpa using hpc)]
      unfold getCol assocGet at ih ⊢
      by_cases hpx : p.1 = x
      · rw [List.find?_cons_of_pos _ (by simpa using hpx),
          List.find?_cons_of_pos _ (by simpa using hpx)]
      · rw [List.find?_cons_of_neg _ (by simpa using hpx),
          List.find?_cons_of_neg _ (by simpa using hpx)]
        exact ih

/-- Setting a column to its current value is the identity. -/
lemma setCol_self {df : Table} {c : String} {col : List Cell}
    (h : getCol df c = some col) : setCol df c col = df := by
  induction df with
  | nil => simp [getCol, assocGet, List.find?] at h
  | cons p rest ih =>
    unfold getCol assocGet at h ih
    unfold setCol assocSet
    by_cases hpc : p.1 = c
    · rw [if_pos (by simpa using hpc)]
      rw [List.find?_cons_of_pos _ (by simpa using hpc)] at h
      simp only [Option.map_some'] at h
      injection h with h
      rcases p with ⟨a, b⟩
      simp only at hpc h
      rw [hpc, h]
    · rw [if_neg (by simpa using hpc)]
      rw [List.find?_cons_of_neg _ (by simpa using hpc)] at h
      congr 1
      exact ih h

/-- A present column names one of the table's pairs. -/
lemma hasCol_exists_pair {df : Table} {c : String} (h : hasCol df c = true) :
    ∃ col, (c, col) ∈ df ∧ getCol df c = some col := by
  rcases hf : df.find? (fun p => p.1 == c) with _ | p
  · exfalso
    have hs := hasCol_find?_isSome h
    rw [hf] at hs
    simp at hs
  · have hp1 : p.1 = c := by simpa using List.find?_some hf
    have hm := List.mem_of_find?_eq_some hf
    refine ⟨p.2, ?_, ?_⟩
    · rcases p with ⟨a, b⟩
      simp only at hp1
      rw [← hp1]
      exact hm
    · unfold getCol assocGet
      rw [hf]
      rfl

/-- A map that fixes every element is the identity. -/
lemma list_map_id {α : Type} {l : List α} {f : α → α} (h : ∀ x ∈ l, f x = x) :
    l.map f = l := by
  induction l with
  | nil => rfl
  | cons x xs ih =>
    rw [List.map_cons, h x (by simp), ih (fun y hy => h y (by simp [hy]))]

/-- `genericCast` keeps the column names. -/
lemma genericCast_names (df : Table) : colNames (genericCast df) = colNames df := by
  unfold genericCast colNames
  rw [List.map_map]
  refine List.map_congr_left ?_
  intro p _
  simp only [Function.comp_apply]
  by_cases h1 : p.1 == "device_id"
  · rw [if_pos h1]
  · rw [if_neg h1]
    by_cases h2 : p.2.any isObjCell
    · rw [if_pos h2]
    · rw [if_neg h2]

/-- `hasCol` is invariant under `genericCast`. -/
lemma hasCol_genericCast {df : Table} {x : String} :
    hasCol (genericCast df) x = hasCol df x := by
  unfold hasCol
  rw [genericCast_names]

/-- The generic pass yields a stable table. -/
lemma genericCast_stable (df : Table) : PStable (genericCast df) := by
  intro p hp hne
  unfold genericCast at hp
  rcases List.mem_map.1 hp with ⟨q, _, rfl⟩
  by_cases h1 : q.1 == "device_id"
  · exfalso
    apply hne
    rw [if_pos h1]
    simpa using h1
  · rw [if_neg h1]
    by_cases h2 : q.2.any isObjCell
    · rw [if_pos h2]
      exact toNumericIgnoreCol_stable q.2
    · rw [if_neg h2]
      intro habs
      exact absurd habs h2

/-- Generic membership after `assocSet`: an old pair or the new binding. -/
lemma mem_assocSet {α : Type} {l : List (String × α)} {k x : String} {v vx : α}
    (h : (x, vx) ∈ assocSet l k v) : (x, vx) ∈ l ∨ (x, vx) = (k, v) := by
  induction l with
  | nil =>
    unfold assocSet at h
    exact Or.inr (List.mem_singleton.1 h)
  | cons p rest ih =>
    unfold assocSet at h
    by_cases hpk : p.1 = k
    · rw [if_pos (by simpa using hpk)] at h
      rcases List.mem_cons.1 h with h1 | h1
      · exact Or.inr h1
      · exact Or.inl (List.mem_cons.2 (Or.inr h1))
    · rw [if_neg (by simpa using hpk)] at h
      rcases List.mem_cons.1 h with h1 | h1
      · exact Or.inl (List.mem_cons.2 (Or.inl h1))
      · rcases ih h1 with h2 | h2
        · exact Or.inl (List.mem_cons.2 (Or.inr h2))
        · exact Or.inr h2

/-- Column presence distributes over DataFrame concatenation. -/
lemma hasCol_append {a b : Table} {x : String} :
    hasCol (a ++ b) x = (hasCol a x || hasCol b x) := by
  unfold hasCol colNames
  rw [List.map_append, List.contains_eq_any_beq, List.contains_eq_any_beq,
    List.contains_eq_any_beq, List.any_append]

/-- Reading a column present on the left ignores appended columns. -/
lemma getCol_append_left {a b : Table} {x : String} (h : hasCol a x = true) :
    getCol (a ++ b) x = getCol a x :=
  assocGet_append_left (hasCol_find?_isSome h)

/-- Converse of the inner `unionNames` fold: every member was in the
accumulator or in the new row. -/
lemma unionNames_inner_back (l : List String) :
    ∀ (acc : List String) (x : String),
      x ∈ l.foldl (fun a n => if a.contains n then a else a ++ [n]) acc →
      x ∈ acc ∨ x ∈ l := by
  induction l with
  | nil => intro acc x h; exact Or.inl (by simpa using h)
  | cons n tl ih =>
    intro acc x h
    simp only [List.foldl_cons] at h
    by_cases hc : acc.contains n
    · rw [if_pos hc] at h
      rcases ih _ _ h with h1 | h1
      · exact Or.inl h1
      · exact Or.inr (List.mem_cons.2 (Or.inr h1))
    · rw [if_neg hc] at h
      rcases ih _ _ h with h1 | h1
      · rcases List.mem_append.1 h1 with h2 | h2
        · exact Or.inl h2
        · exact Or.inr (List.mem_cons.2 (Or.inl (by simpa using h2)))
      · exact Or.inr (List.mem_cons.2 (Or.inr h1))

/-- Converse of the outer `unionNames` fold, accumulator generalized. -/
lemma unionNames_foldl_back (ls : List (List String)) :
    ∀ (acc : List String) (x : String),
      x ∈ ls.foldl
        (fun acc l => l.foldl (fun a n => if a.contains n then a else a ++ [n]) acc) acc →
      x ∈ acc ∨ ∃ l ∈ ls, x ∈ l := by
  induction ls with
  | nil => intro acc x h; exact Or.inl (by simpa using h)
  | cons hd tl ih =>
    intro acc x h
    simp only [List.foldl_cons] at h
    rcases ih _ _ h with h1 | h1
    · rcases unionNames_inner_back hd acc x h1 with h2 | h2
      · exact Or.inl h2
      · exact Or.inr ⟨hd, by simp, h2⟩
    · rcases h1 with ⟨l, hl, hx⟩
      exact Or.inr ⟨l, List.mem_cons.2 (Or.inr hl), hx⟩

/-- Every name of the union came from one of the row lists. -/
lemma unionNames_back {ls : List (List String)} {x : String}
    (h : x ∈ unionNames ls) : ∃ l ∈ ls, x ∈ l := by
  rcases unionNames_foldl_back ls [] x h with h1 | h1
  · cases h1
  · exact h1

/-- The fixed set of canonical metric names that
`normalize_sensecap_messages` can ever create (lines 425-438). -/
def metricList : List String :=
  ["temperature", "humidity", "illumination", "uv_index", "wind_speed",
   "wind_dir", "rainfall", "pressure_hpa"]

/-- A `pickMetric` entry carries the fixed canonical name and a value
taken from `by_type`. -/
lemma pickMetric_mem {bt : List (String × Cell)} {label name : String} {p : String × Cell}
    (h : p ∈ pickMetric bt label name) : p.1 = name ∧ ∃ q ∈ bt, p.2 = q.2 := by
  unfold pickMetric at h
  rcases hg : assocGet bt label with _ | v
  · rw [hg] at h; cases h
  · rw [hg] at h
    rcases List.mem_singleton.1 h with rfl
    exact ⟨rfl, ⟨(label, v), assocGet_eq_some_mem hg, rfl⟩⟩

/-- A `pressureMetric` entry is named `pressure_hpa` and is numeric. -/
lemma pressureMetric_mem {bt : List (String × Cell)} {p : String × Cell}
    (h : p ∈ pressureMetric bt) : p.1 = "pressure_hpa" ∧ ∃ q, p.2 = Cell.num q := by
  unfold pressureMetric at h
  rcases hg : (assocGet bt "Barometric Pressure").bind cellFloat with _ | q
  · rw [hg] at h; cases h
  · rw [hg] at h
    rcases List.mem_singleton.1 h with rfl
    exact ⟨rfl, ⟨_, rfl⟩⟩

/-- `res` only ever holds the eight canonical metric names. -/
lemma sensecapRes_name {bt : List (String × Cell)} {p : String × Cell}
    (h : p ∈ sensecapRes bt) : p.1 ∈ metricList := by
  unfold sensecapRes at h
  simp only [List.mem_append] at h
  rcases h with ((((((h | h) | h) | h) | h) | h) | h) | h
  · rw [(pickMetric_mem h).1]; decide
  · rw [(pickMetric_mem h).1]; decide
  · rw [(pickMetric_mem h).1]; decide
  · rw [(pickMetric_mem h).1]; decide
  · rw [(pickMetric_mem h).1]; decide
  · rw [(pickMetric_mem h).1]; decide
  · rw [(pickMetric_mem h).1]; decide
  · rw [(pressureMetric_mem h).1]; decide

/-- The cell property preserved through metric extraction: an
`object`-dtype cell here never parses numerically. -/
def PvCell (c : Cell) : Prop := isObjCell c = true → parseCell c = none

/-- Non-object cells satisfy the property vacuously. -/
lemma PvCell_of_not_obj {c : Cell} (h : isObjCell c = false) : PvCell c := by
  intro h2
  rw [h] at h2
  cases h2

/-- A value on which `float(...)` raised stays unparseable as a cell. -/
lemma PvCell_ofJsonCell {v : Json} (h : floatOfJson v = none) : PvCell (ofJsonCell v) := by
  cases v with
  | null => exact PvCell_of_not_obj rfl
  | bool b => simp [floatOfJson] at h
  | num q => simp [floatOfJson] at h
  | str s =>
    intro _
    show parseCell (Cell.str s) = none
    simp only [parseCell]
    rw [show floatOfJson (Json.str s) = strToRat? s from rfl] at h
    rw [h]
    rfl
  | arr a => intro _; rfl
  | obj o => intro _; rfl

/-- One `by_type` update keeps every stored value `PvCell`. -/
lemma btStep_vals {acc : List (String × Cell)} {m : Json}
    (h : ∀ p ∈ acc, PvCell p.2) : ∀ p ∈ btStep acc m, PvCell p.2 := by
  intro p hp
  rcases m with _ | b | q | s | a | fs
  · exact h p hp
  · exact h p hp
  · exact h p hp
  · exact h p hp
  · exact h p hp
  · simp only [btStep] at hp
    rcases hg : JsonObj.get fs "type" with _ | j
    · rw [hg] at hp
      exact h p hp
    · rw [hg] at hp
      rcases j with _ | b | q | s2 | a | o
      · exact h p hp
      · exact h p hp
      · exact h p hp
      · simp only at hp
        rcases p with ⟨x, vx⟩
        rcases mem_assocSet hp with h1 | h1
        · exact h _ h1
        · injection h1 with h1a h1b
          rw [h1b]
          rcases hf : floatOfJson ((JsonObj.get fs "measurementValue").getD Json.null)
            with _ | q
          · simp only [hf]
            exact PvCell_ofJsonCell hf
          · simp only [hf]
            exact PvCell_of_not_obj rfl
      · exact h p hp
      · exact h p hp

/-- The `by_type` fold keeps every stored value `PvCell`. -/
lemma byType_foldl_vals (ms : List Json) :
    ∀ (acc : List (String × Cell)), (∀ p ∈ acc, PvCell p.2) →
      ∀ p ∈ ms.foldl btStep acc, PvCell p.2 := by
  induction ms with
  | nil => intro acc h p hp; exact h p (by simpa using hp)
  | cons m tl ih =>
    intro acc h p hp
    simp only [List.foldl_cons] at hp
    exact ih _ (btStep_vals h) p hp

/-- Every `by_type` value is `PvCell`. -/
lemma byType_vals {ms : List Json} : ∀ p ∈ byType ms, PvCell p.2 :=
  byType_foldl_vals ms [] (fun p hp => absurd hp (List.not_mem_nil p))

/-- Every `res` value is `PvCell`. -/
lemma sensecapRes_vals {bt : List (String × Cell)} (hbt : ∀ q ∈ bt, PvCell q.2) :
    ∀ p ∈ sensecapRes bt, PvCell p.2 := by
  intro p hp
  unfold sensecapRes at hp
  simp only [List.mem_append] at hp
  rcases hp with ((((((h | h) | h) | h) | h) | h) | h) | h
  · rcases (pickMetric_mem h).2 with ⟨q, hq, hv⟩
    rw [hv]; exact hbt q hq
  · rcases (pickMetric_mem h).2 with ⟨q, hq, hv⟩
    rw [hv]; exact hbt q hq
  · rcases (pickMetric_mem h).2 with ⟨q, hq, hv⟩
    rw [hv]; exact hbt q hq
  · rcases (pickMetric_mem h).2 with ⟨q, hq, hv⟩
    rw [hv]; exact hbt q hq
  · rcases (pickMetric_mem h).2 with ⟨q, hq, hv⟩
    rw [hv]; exact hbt q hq
  · rcases (pickMetric_mem h).2 with ⟨q, hq, hv⟩
    rw [hv]; exact hbt q hq
  · rcases (pickMetric_mem h).2 with ⟨q, hq, hv⟩
    rw [hv]; exact hbt q hq
  · rcases (pressureMetric_mem h).2 with ⟨q, hv⟩
    rw [hv]; exact PvCell_of_not_obj rfl

/-- Every extracted metric value is `PvCell`. -/
lemma extractMetrics_vals {c : Cell} : ∀ p ∈ extractMetrics c, PvCell p.2 := by
  intro p hp
  rcases c with q | s | b | _ | j
  · simp [extractMetrics] at hp
  · simp [extractMetrics] at hp
  · simp [extractMetrics] at hp
  · simp [extractMetrics] at hp
  · exact sensecapRes_vals byType_vals p hp

/-- Every extracted metric name is canonical. -/
lemma extractMetrics_name {c : Cell} {p : String × Cell} (hp : p ∈ extractMetrics c) :
    p.1 ∈ metricList := by
  rcases c with q | s | b | _ | j
  · simp [extractMetrics] at hp
  · simp [extractMetrics] at hp
  · simp [extractMetrics] at hp
  · simp [extractMetrics] at hp
  · exact sensecapRes_name hp

/-- A name appearing in the metric-name union is canonical. -/
lemma metricNamesOf_sub {pcol : List Cell} {n : String} (h : n ∈ metricNamesOf pcol) :
    n ∈ metricList := by
  unfold metricNamesOf at h
  rcases unionNames_back h with ⟨l, hl, hn⟩
  rcases List.mem_map.1 hl with ⟨d, hd, rfl⟩
  rcases List.mem_map.1 hn with ⟨p, hp, rfl⟩
  rcases List.mem_map.1 hd with ⟨c, _, rfl⟩
  exact extractMetrics_name hp

/-- A column of `PvCell` cells is conversion-stable. -/
lemma colStable_of_Pv {col : List Cell} (h : ∀ c ∈ col, PvCell c) : colStable col := by
  intro hobj
  rcases List.any_eq_true.1 hobj with ⟨c, hc, hco⟩
  exact colStable_of_fail hc (h c hc hco) hobj

/-- Every cell of an appended metric column is `PvCell`. -/
lemma metricCol_vals {pcol : List Cell} {n : String} :
    ∀ c ∈ (pcol.map extractMetrics).map (fun d => (assocGet d n).getD Cell.nil), PvCell c := by
  intro c hc
  rcases List.mem_map.1 hc with ⟨d, hd, rfl⟩
  rcases List.mem_map.1 hd with ⟨c0, _, rfl⟩
  show PvCell ((assocGet (extractMetrics c0) n).getD Cell.nil)
  rcases hg : assocGet (extractMetrics c0) n with _ | v
  · exact PvCell_of_not_obj rfl
  · exact extractMetrics_vals (n, v) (assocGet_eq_some_mem hg)

/-- `setCol` keeps every present column present. -/
lemma hasCol_setCol_mono {df : Table} {c x : String} {col : List Cell}
    (h : hasCol df x = true) : hasCol (setCol df c col) x = true := by
  rw [hasCol_setCol, h]
  rfl

/-- The two outcomes of a vendor rule, with the guard facts recorded. -/
lemma ruleStep_cases (v : Table → String → List Cell) (df : Table) (sd : String × String) :
    (ruleStep v df sd = df ∧ (hasCol df sd.1 = false ∨ hasCol df sd.2 = true)) ∨
      (hasCol df sd.1 = true ∧ hasCol df sd.2 = false ∧
        ruleStep v df sd = setCol df sd.2 (v df sd.1)) := by
  unfold ruleStep
  by_cases h : hasCol df sd.1 = true ∧ ¬ hasCol df sd.2 = true
  · rw [if_pos h]
    exact Or.inr ⟨h.1, by simpa using h.2, rfl⟩
  · rw [if_neg h]
    refine Or.inl ⟨rfl, ?_⟩
    by_cases h1 : hasCol df sd.1 = true
    · by_cases h2 : hasCol df sd.2 = true
      · exact Or.inr h2
      · exact absurd ⟨h1, h2⟩ h
    · exact Or.inl (by simpa using h1)

/-- A vendor rule never removes a column. -/
lemma ruleStep_mono (v : Table → String → List Cell) (sd : String × String)
    {df : Table} {x : String} (h : hasCol df x = true) :
    hasCol (ruleStep v df sd) x = true := by
  rcases ruleStep_cases v df sd with ⟨he, _⟩ | ⟨_, _, he⟩
  · rw [he]; exact h
  · rw [he]; exact hasCol_setCol_mono h

/-- A vendor rule creates at most its destination column. -/
lemma ruleStep_back (v : Table → String → List Cell) (sd : String × String)
    {df : Table} {x : String} (h : hasCol (ruleStep v df sd) x = true) :
    hasCol df x = true ∨ x = sd.2 := by
  rcases ruleStep_cases v df sd with ⟨he, _⟩ | ⟨_, _, he⟩
  · rw [he] at h; exact Or.inl h
  · rw [he, hasCol_setCol] at h
    have h2 : hasCol df x = true ∨ x = sd.2 := by simpa using h
    exact h2

/-- When its source is present, a vendor rule guarantees its destination. -/
lemma ruleStep_derive (v : Table → String → List Cell) (sd : String × String)
    {df : Table} (h : hasCol df sd.1 = true) :
    hasCol (ruleStep v df sd) sd.2 = true := by
  rcases ruleStep_cases v df sd with ⟨he, hg⟩ | ⟨_, _, he⟩
  · rw [he]
    rcases hg with h1 | h1
    · rw [h] at h1; cases h1
    · exact h1
  · rw [he, hasCol_setCol]
    simp

/-- A vendor rule never changes a column that is already present. -/
lemma ruleStep_getCol (v : Table → String → List Cell) (sd : String × String)
    {df : Table} {x : String} (h : hasCol df x = true) :
    getCol (ruleStep v df sd) x = getCol df x := by
  rcases ruleStep_cases v df sd with ⟨he, _⟩ | ⟨_, hd, he⟩
  · rw [he]
  · rw [he]
    by_cases hx : x = sd.2
    · rw [hx] at h
      rw [h] at hd
      cases hd
    · exact getCol_setCol_other hx

/-- `setCol` with a stable column keeps the table stable. -/
lemma PStable_setCol {df : Table} {c : String} {col : List Cell}
    (hp : PStable df) (hc : colStable col) : PStable (setCol df c col) := by
  intro p hmem hne
  rcases p with ⟨x, vx⟩
  rcases mem_setCol hmem with h1 | h1
  · exact hp _ h1 hne
  · injection h1 with h1a h1b
    rw [h1b]
    exact hc

/-- Appending stable columns keeps the table stable. -/
lemma PStable_append {a b : Table} (hp : PStable a) (hb : ∀ p ∈ b, colStable p.2) :
    PStable (a ++ b) := by
  intro p hmem hne
  rcases List.mem_append.1 hmem with h1 | h1
  · exact hp _ h1 hne
  · exact hb _ h1

/-- A vendor rule writing a stable column keeps the table stable. -/
lemma ruleStep_PStable (v : Table → String → List Cell) (sd : String × String)
    {df : Table} (hv : colStable (v df sd.1)) (hp : PStable df) :
    PStable (ruleStep v df sd) := by
  rcases ruleStep_cases v df sd with ⟨he, _⟩ | ⟨_, _, he⟩
  · rw [he]; exact hp
  · rw [he]; exact PStable_setCol hp hv

/-- A vendor rule whose destination is already present does nothing. -/
lemma ruleStep_id (v : Table → String → List Cell) (sd : String × String)
    {df : Table} (h : hasCol df sd.1 = true → hasCol df sd.2 = true) :
    ruleStep v df sd = df := by
  unfold ruleStep
  rw [if_neg ?_]
  rintro ⟨h1, h2⟩
  exact h2 (h h1)

/-- A rule chain never removes a column. -/
lemma foldl_ruleStep_mono (v : Table → String → List Cell) (ps : List (String × String)) :
    ∀ {df : Table} {x : String}, hasCol df x = true →
      hasCol (ps.foldl (ruleStep v) df) x = true := by
  induction ps with
  | nil => intro df x h; simpa using h
  | cons p tl ih =>
    intro df x h
    simp only [List.foldl_cons]
    exact ih (ruleStep_mono v p h)

/-- A rule chain creates at most its destination columns. -/
lemma foldl_ruleStep_back (v : Table → String → List Cell) (ps : List (String × String)) :
    ∀ {df : Table} {x : String}, hasCol (ps.foldl (ruleStep v) df) x = true →
      hasCol df x = true ∨ x ∈ ps.map Prod.snd := by
  induction ps with
  | nil => intro df x h; exact Or.inl (by simpa using h)
  | cons p tl ih =>
    intro df x h
    simp only [List.foldl_cons] at h
    rcases ih h with h1 | h1
    · rcases ruleStep_back v p h1 with h2 | h2
      · exact Or.inl h2
      · exact Or.inr (by rw [List.map_cons]; exact List.mem_cons.2 (Or.inl h2))
    · exact Or.inr (by rw [List.map_cons]; exact List.mem_cons.2 (Or.inr h1))

/-- A rule chain whose source is present guarantees the destination. -/
lemma foldl_ruleStep_derive (v : Table → String → List Cell) (ps : List (String × String)) :
    ∀ {df : Table} {s d : String}, (s, d) ∈ ps → hasCol df s = true →
      hasCol (ps.foldl (ruleStep v) df) d = true := by
  induction ps with
  | nil => intro df s d hmem; cases hmem
  | cons p tl ih =>
    intro df s d hmem h
    simp only [List.foldl_cons]
    rcases List.mem_cons.1 hmem with h1 | h1
    · have hs1 : hasCol df p.1 = true := by rw [← h1]; exact h
      have hd1 : d = p.2 := by rw [← h1]
      rw [hd1]
      exact foldl_ruleStep_mono v tl (ruleStep_derive v p hs1)
    · exact ih h1 (ruleStep_mono v p h)

/-- A rule chain never changes a column that is already present. -/
lemma foldl_ruleStep_getCol (v : Table → String → List Cell) (ps : List (String × String)) :
    ∀ {df : Table} {x : String}, hasCol df x = true →
      getCol (ps.foldl (ruleStep v) df) x = getCol df x := by
  induction ps with
  | nil => intro df x _; rfl
  | cons p tl ih =>
    intro df x h
    simp only [List.foldl_cons]
    rw [ih (ruleStep_mono v p h), ruleStep_getCol v p h]

/-- A rule chain writing stable columns keeps the table stable. -/
lemma foldl_ruleStep_PStable (v : Table → String → List Cell) (ps : List (String × String))
    (hv : ∀ (df : Table) (sd : String × String), sd ∈ ps → PStable df →
      colStable (v df sd.1)) :
    ∀ {df : Table}, PStable df → PStable (ps.foldl (ruleStep v) df) := by
  induction ps with
  | nil => intro df hp; simpa using hp
  | cons p tl ih =>
    intro df hp
    simp only [List.foldl_cons]
    exact ih (fun df2 sd hsd hp2 => hv df2 sd (List.mem_cons.2 (Or.inr hsd)) hp2)
      (ruleStep_PStable v p (hv df p (List.mem_cons.2 (Or.inl rfl)) hp) hp)

/-- A rule chain whose destinations are all covered does nothing. -/
lemma foldl_ruleStep_id (v : Table → String → List Cell) (ps : List (String × String))
    {df : Table} (h : ∀ sd ∈ ps, hasCol df sd.1 = true → hasCol df sd.2 = true) :
    ps.foldl (ruleStep v) df = df := by
  induction ps with
  | nil => rfl
  | cons p tl ih =>
    simp only [List.foldl_cons]
    rw [ruleStep_id v p (h p (List.mem_cons.2 (Or.inl rfl)))]
    exact ih (fun sd hsd => h sd (List.mem_cons.2 (Or.inr hsd)))

/-- The three outcomes of the dds75 battery rule, with guard facts. -/
lemma dds75Battery_cases (df : Table) :
    (dds75Battery df = df ∧
      (hasCol df "battery" = true ∨ ∀ s ∈ ["Bat", "BAT", "Bat_V"], hasCol df s = false)) ∨
      (hasCol df "battery" = false ∧
        ∃ src ∈ ["Bat", "BAT", "Bat_V"], hasCol df src = true ∧
          dds75Battery df = setCol df "battery" (coercedCol df src)) := by
  unfold dds75Battery
  by_cases hb : hasCol df "battery" = true
  · rw [if_pos hb]
    exact Or.inl ⟨rfl, Or.inl hb⟩
  · rw [if_neg hb]
    rcases hf : ["Bat", "BAT", "Bat_V"].find? (fun s => hasCol df s) with _ | src
    · refine Or.inl ⟨rfl, Or.inr ?_⟩
      intro s hs
      have := List.find?_eq_none.1 hf s hs
      simpa using this
    · exact Or.inr ⟨by simpa using hb, src, List.mem_of_find?_eq_some hf,
        by simpa using List.find?_some hf, rfl⟩

/-- The battery rule never removes a column. -/
lemma dds75Battery_mono {df : Table} {x : String} (h : hasCol df x = true) :
    hasCol (dds75Battery df) x = true := by
  rcases dds75Battery_cases df with ⟨he, _⟩ | ⟨_, src, _, _, he⟩
  · rw [he]; exact h
  · rw [he]; exact hasCol_setCol_mono h

/-- The battery rule creates at most `battery`. -/
lemma dds75Battery_back {df : Table} {x : String} (h : hasCol (dds75Battery df) x = true) :
    hasCol df x = true ∨ x = "battery" := by
  rcases dds75Battery_cases df with ⟨he, _⟩ | ⟨_, src, _, _, he⟩
  · rw [he] at h; exact Or.inl h
  · rw [he, hasCol_setCol] at h
    have h2 : hasCol df x = true ∨ x = "battery" := by simpa using h
    exact h2

/-- With a raw battery source present, the rule guarantees `battery`. -/
lemma dds75Battery_derive {df : Table} {s : String} (hs : s ∈ ["Bat", "BAT", "Bat_V"])
    (h : hasCol df s = true) : hasCol (dds75Battery df) "battery" = true := by
  rcases dds75Battery_cases df with ⟨he, hg⟩ | ⟨_, src, _, _, he⟩
  · rw [he]
    rcases hg with h1 | h1
    · exact h1
    · rw [h1 s hs] at h
      cases h
  · rw [he, hasCol_setCol]
    simp

/-- The battery rule never changes a column that is already present. -/
lemma dds75Battery_getCol {df : Table} {x : String} (h : hasCol df x = true) :
    getCol (dds75Battery df) x = getCol df x := by
  rcases dds75Battery_cases df with ⟨he, _⟩ | ⟨hb, src, _, _, he⟩
  · rw [he]
  · rw [he]
    by_cases hx : x = "battery"
    · rw [hx] at h
      rw [h] at hb
      cases hb
    · exact getCol_setCol_other hx

/-- A coerced copy is always stable. -/
lemma colStable_coercedCol (df : Table) (s : String) : colStable (coercedCol df s) := by
  unfold coercedCol
  exact colStable_coerced _

/-- `cellDiv10` never yields an object-dtyped cell. -/
lemma isObjCell_cellDiv10 (c : Cell) : isObjCell (cellDiv10 c) = false := by
  rcases c <;> rfl

/-- A column with no object-dtyped cell is trivially stable. -/
lemma colStable_of_not_obj {col : List Cell} (h : ∀ c ∈ col, isObjCell c = false) :
    colStable col := by
  intro hobj
  rcases List.any_eq_true.1 hobj with ⟨c, hc, hco⟩
  rw [h c hc] at hco
  cases hco

/-- The distance rule's value column is stable. -/
lemma colStable_distVal (df : Table) (s : String) : colStable (distVal df s) := by
  apply colStable_of_not_obj
  intro c hc
  rcases List.mem_map.1 hc with ⟨c0, _, rfl⟩
  exact isObjCell_cellDiv10 c0

/-- A raw copy of a stable column is stable. -/
lemma colStable_copiedCol {df : Table} {s : String} (hs : s ≠ "device_id")
    (hp : PStable df) : colStable (copiedCol df s) := by
  unfold copiedCol
  rcases hg : getCol df s with _ | col
  · exact colStable_nil
  · have hm : (s, col) ∈ df := assocGet_eq_some_mem hg
    exact hp _ hm hs

/-- The battery rule keeps the table stable. -/
lemma dds75Battery_PStable {df : Table} (hp : PStable df) : PStable (dds75Battery df) := by
  rcases dds75Battery_cases df with ⟨he, _⟩ | ⟨_, src, _, _, he⟩
  · rw [he]; exact hp
  · rw [he]; exact PStable_setCol hp (colStable_coercedCol df src)

/-- The battery rule with `battery` already covered does nothing. -/
lemma dds75Battery_id {df : Table}
    (h : ∀ s ∈ ["Bat", "BAT", "Bat_V"], hasCol df s = true → hasCol df "battery" = true) :
    dds75Battery df = df := by
  rcases dds75Battery_cases df with ⟨he, _⟩ | ⟨hb, src, hmem, hsrc, _⟩
  · exact he
  · rw [h src hmem hsrc] at hb
    cases hb

/-- The full source/destination table of `normalize_dds75` (lines 366-379). -/
def ddsAllPairs : List (String × String) :=
  [("Bat", "battery"), ("BAT", "battery"), ("Bat_V", "battery"),
   ("Distance_mm", "distance_cm"), ("Distance", "distance_cm"),
   ("TempC_DS18B20", "temperature"),
   ("Interrupt_flag", "interrupt_flag"), ("Sensor_flag", "sensor_flag")]

/-- The full source/destination table of `normalize_pslb` (lines 383-400). -/
def pslbAllPairs : List (String × String) :=
  [("Bat_V", "battery"), ("BAT", "battery")] ++ pslbMapping ++ pslbLowerPairs

/-- The canonical columns `normalize_dds75` can create. -/
def ddsNews : List String :=
  ["battery", "distance_cm", "temperature", "interrupt_flag", "sensor_flag"]

/-- The canonical columns `normalize_pslb` can create. -/
def pslbNews : List String :=
  ["battery", "water_cm", "pressure_kpa", "pressure_mpa", "diff_pressure_pa",
   "vdc_input_v", "idc_input_ma", "probe_mode",
   "in1_pin_level", "in2_pin_level", "exti_pin_level", "exti_status"]

/-- Every column any normalization stage can create. -/
def allNews : List String := ddsNews ++ pslbNews ++ metricList

/-- `normalize_dds75`, let-free. -/
lemma normalize_dds75_eq (df : Table) : normalize_dds75 df =
    [("Interrupt_flag", "interrupt_flag"), ("Sensor_flag", "sensor_flag")].foldl
      (ruleStep coercedCol)
      (ruleStep coercedCol
        ([("Distance_mm", "distance_cm"), ("Distance", "distance_cm")].foldl
          (ruleStep distVal) (dds75Battery df))
        ("TempC_DS18B20", "temperature")) := rfl

/-- `normalize_pslb`, let-free. -/
lemma normalize_pslb_eq (df : Table) : normalize_pslb df =
    pslbLowerPairs.foldl (ruleStep copiedCol)
      (pslbMapping.foldl (ruleStep coercedCol)
        ([("Bat_V", "battery"), ("BAT", "battery")].foldl (ruleStep coercedCol) df)) := rfl

/-- `normalize_all`, let-free. -/
lemma normalize_all_eq (df : Table) : normalize_all df =
    coerceColIn (coerceColIn (normalize_sensecap_messages
      (normalize_pslb (normalize_dds75 (genericCast df)))) "rssi") "snr" := rfl

/-- `normalize_dds75` never removes a column. -/
lemma normalize_dds75_mono {df : Table} {x : String} (h : hasCol df x = true) :
    hasCol (normalize_dds75 df) x = true := by
  rw [normalize_dds75_eq]
  exact foldl_ruleStep_mono _ _ (ruleStep_mono _ _ (foldl_ruleStep_mono _ _
    (dds75Battery_mono h)))

/-- `normalize_dds75` creates only its canonical columns. -/
lemma normalize_dds75_back {df : Table} {x : String}
    (h : hasCol (normalize_dds75 df) x = true) : hasCol df x = true ∨ x ∈ ddsNews := by
  rw [normalize_dds75_eq] at h
  rcases foldl_ruleStep_back _ _ h with h1 | h1
  · rcases ruleStep_back _ _ h1 with h2 | h2
    · rcases foldl_ruleStep_back _ _ h2 with h3 | h3
      · rcases dds75Battery_back h3 with h4 | h4
        · exact Or.inl h4
        · subst h4; exact Or.inr (by decide)
      · have h4 : x ∈ (["distance_cm", "distance_cm"] : List String) := by simpa using h3
        have hsub : ∀ y ∈ (["distance_cm", "distance_cm"] : List String), y ∈ ddsNews := by
          decide
        exact Or.inr (hsub x h4)
    · subst h2; exact Or.inr (by decide)
  · have h4 : x ∈ (["interrupt_flag", "sensor_flag"] : List String) := by simpa using h1
    have hsub : ∀ y ∈ (["interrupt_flag", "sensor_flag"] : List String), y ∈ ddsNews := by
      decide
    exact Or.inr (hsub x h4)

/-- `normalize_dds75` never changes a column that is already present. -/
lemma normalize_dds75_getCol {df : Table} {x : String} (h : hasCol df x = true) :
    getCol (normalize_dds75 df) x = getCol df x := by
  rw [normalize_dds75_eq]
  have h1 := dds75Battery_mono h
  have h2 := foldl_ruleStep_mono distVal
    [("Distance_mm", "distance_cm"), ("Distance", "distance_cm")] h1
  have h3 := ruleStep_mono coercedCol ("TempC_DS18B20", "temperature") h2
  rw [foldl_ruleStep_getCol _ _ h3, ruleStep_getCol _ _ h2, foldl_ruleStep_getCol _ _ h1,
    dds75Battery_getCol h]

/-- `normalize_dds75` keeps the table stable. -/
lemma normalize_dds75_PStable {df : Table} (hp : PStable df) :
    PStable (normalize_dds75 df) := by
  rw [normalize_dds75_eq]
  apply foldl_ruleStep_PStable coercedCol _ (fun df2 sd _ _ => colStable_coercedCol df2 sd.1)
  apply ruleStep_PStable _ _ (colStable_coercedCol _ _)
  apply foldl_ruleStep_PStable distVal _ (fun df2 sd _ _ => colStable_distVal df2 sd.1)
  exact dds75Battery_PStable hp

/-- With all its destinations covered, `normalize_dds75` does nothing. -/
lemma normalize_dds75_id {df : Table}
    (h : ∀ sd ∈ ddsAllPairs, hasCol df sd.1 = true → hasCol df sd.2 = true) :
    normalize_dds75 df = df := by
  rw [normalize_dds75_eq]
  have hbat : dds75Battery df = df := by
    apply dds75Battery_id
    intro s hs hss
    have hsub : ∀ y ∈ (["Bat", "BAT", "Bat_V"] : List String),
        (y, "battery") ∈ ddsAllPairs := by decide
    exact h (s, "battery") (hsub s hs) hss
  rw [hbat]
  rw [foldl_ruleStep_id _ _ (fun sd hsd => h sd (by
    have hsub : ∀ y ∈ ([("Distance_mm", "distance_cm"), ("Distance", "distance_cm")] :
        List (String × String)), y ∈ ddsAllPairs := by decide
    exact hsub sd hsd))]
  rw [ruleStep_id _ _ (h ("TempC_DS18B20", "temperature") (by decide))]
  rw [foldl_ruleStep_id _ _ (fun sd hsd => h sd (by
    have hsub : ∀ y ∈ ([("Interrupt_flag", "interrupt_flag"),
        ("Sensor_flag", "sensor_flag")] : List (String × String)), y ∈ ddsAllPairs := by
      decide
    exact hsub sd hsd))]

/-- `normalize_pslb` never removes a column. -/
lemma normalize_pslb_mono {df : Table} {x : String} (h : hasCol df x = true) :
    hasCol (normalize_pslb df) x = true := by
  rw [normalize_pslb_eq]
  exact foldl_ruleStep_mono _ _ (foldl_ruleStep_mono _ _ (foldl_ruleStep_mono _ _ h))

/-- `normalize_pslb` creates only its canonical columns. -/
lemma normalize_pslb_back {df : Table} {x : String}
    (h : hasCol (normalize_pslb df) x = true) : hasCol df x = true ∨ x ∈ pslbNews := by
  rw [normalize_pslb_eq] at h
  rcases foldl_ruleStep_back _ _ h with h1 | h1
  · rcases foldl_ruleStep_back _ _ h1 with h2 | h2
    · rcases foldl_ruleStep_back _ _ h2 with h3 | h3
      · exact Or.inl h3
      · have h4 : x ∈ (["battery", "battery"] : List String) := by simpa using h3
        have hsub : ∀ y ∈ (["battery", "battery"] : List String), y ∈ pslbNews := by decide
        exact Or.inr (hsub x h4)
    · have h4 : x ∈ pslbMapping.map Prod.snd := h2
      have hsub : ∀ y ∈ pslbMapping.map Prod.snd, y ∈ pslbNews := by decide
      exact Or.inr (hsub x h4)
  · have hsub : ∀ y ∈ pslbLowerPairs.map Prod.snd, y ∈ pslbNews := by decide
    exact Or.inr (hsub x h1)

/-- `normalize_pslb` never changes a column that is already present. -/
lemma normalize_pslb_getCol {df : Table} {x : String} (h : hasCol df x = true) :
    getCol (normalize_pslb df) x = getCol df x := by
  rw [normalize_pslb_eq]
  have h1 := foldl_ruleStep_mono coercedCol [("Bat_V", "battery"), ("BAT", "battery")] h
  have h2 := foldl_ruleStep_mono coercedCol pslbMapping h1
  rw [foldl_ruleStep_getCol _ _ h2, foldl_ruleStep_getCol _ _ h1,
    foldl_ruleStep_getCol _ _ h]

/-- `normalize_pslb` keeps the table stable. -/
lemma normalize_pslb_PStable {df : Table} (hp : PStable df) :
    PStable (normalize_pslb df) := by
  rw [normalize_pslb_eq]
  apply foldl_ruleStep_PStable copiedCol _ ?_
  · apply foldl_ruleStep_PStable coercedCol _
      (fun df2 sd _ _ => colStable_coercedCol df2 sd.1)
    apply foldl_ruleStep_PStable coercedCol _
      (fun df2 sd _ _ => colStable_coercedCol df2 sd.1)
    exact hp
  · intro df2 sd hsd hp2
    have hne : sd.1 ≠ "device_id" := by
      rcases sd with ⟨a, b⟩
      simp only [pslbLowerPairs, List.mem_cons, List.not_mem_nil, or_false] at hsd
      rcases hsd with h1 | h1 | h1 | h1 <;> (rw [h1]; decide)
    exact colStable_copiedCol hne hp2

/-- With all its destinations covered, `normalize_pslb` does nothing. -/
lemma normalize_pslb_id {df : Table}
    (h : ∀ sd ∈ pslbAllPairs, hasCol df sd.1 = true → hasCol df sd.2 = true) :
    normalize_pslb df = df := by
  rw [normalize_pslb_eq]
  rw [foldl_ruleStep_id _ _ (fun sd hsd => h sd (by
    have hsub : ∀ y ∈ ([("Bat_V", "battery"), ("BAT", "battery")] :
        List (String × String)), y ∈ pslbAllPairs := by decide
    exact hsub sd hsd))]
  rw [foldl_ruleStep_id _ _ (fun sd hsd => h sd (by
    have hsub : ∀ y ∈ pslbMapping, y ∈ pslbAllPairs := by decide
    exact hsub sd hsd))]
  rw [foldl_ruleStep_id _ _ (fun sd hsd => h sd (by
    have hsub : ∀ y ∈ pslbLowerPairs, y ∈ pslbAllPairs := by decide
    exact hsub sd hsd))]

/-- With a raw battery source present, `normalize_dds75` yields `battery`. -/
lemma normalize_dds75_derive_battery {df : Table} {s : String}
    (hs : s ∈ ["Bat", "BAT", "Bat_V"]) (h : hasCol df s = true) :
    hasCol (normalize_dds75 df) "battery" = true := by
  rw [normalize_dds75_eq]
  exact foldl_ruleStep_mono _ _ (ruleStep_mono _ _ (foldl_ruleStep_mono _ _
    (dds75Battery_derive hs h)))

/-- With a raw distance source present, `normalize_dds75` yields
`distance_cm`. -/
lemma normalize_dds75_derive_dist {df : Table} {s : String}
    (hs : (s, "distance_cm") ∈ [("Distance_mm", "distance_cm"), ("Distance", "distance_cm")])
    (h : hasCol df s = true) : hasCol (normalize_dds75 df) "distance_cm" = true := by
  rw [normalize_dds75_eq]
  exact foldl_ruleStep_mono _ _ (ruleStep_mono _ _
    (foldl_ruleStep_derive _ _ hs (dds75Battery_mono h)))

/-- With the raw temperature source present, `normalize_dds75` yields
`temperature`. -/
lemma normalize_dds75_derive_temp {df : Table}
    (h : hasCol df "TempC_DS18B20" = true) :
    hasCol (normalize_dds75 df) "temperature" = true := by
  rw [normalize_dds75_eq]
  exact foldl_ruleStep_mono _ _ (ruleStep_derive coercedCol ("TempC_DS18B20", "temperature")
    (foldl_ruleStep_mono _ _ (dds75Battery_mono h)))

/-- With a raw flag source present, `normalize_dds75` yields the flag. -/
lemma normalize_dds75_derive_flag {df : Table} {s d : String}
    (hs : (s, d) ∈ [("Interrupt_flag", "interrupt_flag"), ("Sensor_flag", "sensor_flag")])
    (h : hasCol df s = true) : hasCol (normalize_dds75 df) d = true := by
  rw [normalize_dds75_eq]
  exact foldl_ruleStep_derive _ _ hs (ruleStep_mono _ _ (foldl_ruleStep_mono _ _
    (dds75Battery_mono h)))

/-- With a mapped source present, `normalize_pslb` yields its destination. -/
lemma normalize_pslb_derive_map {df : Table} {s d : String} (hs : (s, d) ∈ pslbMapping)
    (h : hasCol df s = true) : hasCol (normalize_pslb df) d = true := by
  rw [normalize_pslb_eq]
  exact foldl_ruleStep_mono _ _ (foldl_ruleStep_derive _ _ hs (foldl_ruleStep_mono _ _ h))

/-- With a copy source present, `normalize_pslb` yields its lowercase copy. -/
lemma normalize_pslb_derive_low {df : Table} {s d : String} (hs : (s, d) ∈ pslbLowerPairs)
    (h : hasCol df s = true) : hasCol (normalize_pslb df) d = true := by
  rw [normalize_pslb_eq]
  exact foldl_ruleStep_derive _ _ hs (foldl_ruleStep_mono _ _ (foldl_ruleStep_mono _ _ h))

/-- The metric columns `normalize_sensecap_messages` appends (lines
440-445): one column per extracted name not already present. -/
def sensecapNew (df : Table) : Table :=
  ((metricNamesOf ((getCol df "payload_json").getD [])).filter
      (fun n => !(hasCol df n))).map
    (fun n => (n, (((getCol df "payload_json").getD []).map extractMetrics).map
      (fun d => (assocGet d n).getD Cell.nil)))

/-- `normalize_sensecap_messages`, through `sensecapNew`. -/
lemma normalize_sensecap_messages_eq (df : Table) : normalize_sensecap_messages df =
    if tableEmpty df ∨ ¬ hasCol df "payload_json" then df
    else
      if (metricNamesOf ((getCol df "payload_json").getD [])).isEmpty then df
      else df ++ sensecapNew df := rfl

/-- The outcomes of the SenseCAP stage, with guard facts recorded. -/
lemma sensecap_cases (df : Table) :
    (normalize_sensecap_messages df = df ∧
      (tableEmpty df = true ∨ hasCol df "payload_json" = false ∨
        metricNamesOf ((getCol df "payload_json").getD []) = [])) ∨
      (hasCol df "payload_json" = true ∧
        normalize_sensecap_messages df = df ++ sensecapNew df) := by
  rw [normalize_sensecap_messages_eq]
  by_cases h1 : tableEmpty df = true ∨ ¬ hasCol df "payload_json" = true
  · rw [if_pos h1]
    refine Or.inl ⟨rfl, ?_⟩
    rcases h1 with h1 | h1
    · exact Or.inl h1
    · exact Or.inr (Or.inl (by simpa using h1))
  · rw [if_neg h1]
    push_neg at h1
    by_cases h2 : (metricNamesOf ((getCol df "payload_json").getD [])).isEmpty = true
    · rw [if_pos h2]
      exact Or.inl ⟨rfl, Or.inr (Or.inr (by simpa using h2))⟩
    · rw [if_neg h2]
      exact Or.inr ⟨h1.2, rfl⟩

/-- The appended metric block's column names are the filtered names. -/
lemma hasCol_sensecapNew {df : Table} {n : String}
    (h : n ∈ (metricNamesOf ((getCol df "payload_json").getD [])).filter
      (fun m => !(hasCol df m))) : hasCol (sensecapNew df) n = true := by
  unfold sensecapNew hasCol colNames
  rw [List.contains_eq_any_beq]
  apply List.any_eq_true.2
  refine ⟨n, ?_, by simp⟩
  rw [List.map_map]
  exact List.mem_map.2 ⟨n, h, rfl⟩

/-- The SenseCAP stage never removes a column. -/
lemma sensecap_mono {df : Table} {x : String} (h : hasCol df x = true) :
    hasCol (normalize_sensecap_messages df) x = true := by
  rcases sensecap_cases df with ⟨he, _⟩ | ⟨_, he⟩
  · rw [he]; exact h
  · rw [he, hasCol_append, h]; rfl

/-- The SenseCAP stage creates only canonical metric columns. -/
lemma sensecap_back {df : Table} {x : String}
    (h : hasCol (normalize_sensecap_messages df) x = true) :
    hasCol df x = true ∨ x ∈ metricList := by
  rcases sensecap_cases df with ⟨he, _⟩ | ⟨_, he⟩
  · rw [he] at h; exact Or.inl h
  · rw [he, hasCol_append] at h
    rcases Bool.or_eq_true_iff.1 h with h1 | h1
    · exact Or.inl h1
    · rcases hasCol_exists_pair h1 with ⟨col, hmem, _⟩
      unfold sensecapNew at hmem
      rcases List.mem_map.1 hmem with ⟨n, hn, heq⟩
      injection heq with heq1 _
      rw [← heq1]
      exact Or.inr (metricNamesOf_sub (List.mem_filter.1 hn).1)

/-- The SenseCAP stage never changes a column that is already present. -/
lemma sensecap_getCol {df : Table} {x : String} (h : hasCol df x = true) :
    getCol (normalize_sensecap_messages df) x = getCol df x := by
  rcases sensecap_cases df with ⟨he, _⟩ | ⟨_, he⟩
  · rw [he]
  · rw [he]
    exact getCol_append_left h

/-- The SenseCAP stage keeps the table stable. -/
lemma sensecap_PStable {df : Table} (hp : PStable df) :
    PStable (normalize_sensecap_messages df) := by
  rcases sensecap_cases df with ⟨he, _⟩ | ⟨_, he⟩
  · rw [he]; exact hp
  · rw [he]
    apply PStable_append hp
    intro p hmem
    unfold sensecapNew at hmem
    rcases List.mem_map.1 hmem with ⟨n, _, heq⟩
    rw [← heq]
    exact colStable_of_Pv metricCol_vals

/-- A nonempty-guarded table with a present column has only empty cells
in it when `df.empty` holds. -/
lemma tableEmpty_getCol_nil {df : Table} {c : String} (he : tableEmpty df = true)
    (h : hasCol df c = true) : (getCol df c).getD [] = [] := by
  unfold tableEmpty at he
  rcases Bool.or_eq_true_iff.1 he with h1 | h1
  · rw [List.isEmpty_iff] at h1
    rw [h1] at h
    cases h
  · rcases hasCol_exists_pair h with ⟨col, hmem, hg⟩
    have h2 := List.all_eq_true.1 h1 (c, col) hmem
    rw [hg]
    simpa using h2

/-- With every extracted metric column already present, the SenseCAP
stage does nothing. -/
lemma sensecap_id {df : Table}
    (h : hasCol df "payload_json" = true →
      ∀ n ∈ metricNamesOf ((getCol df "payload_json").getD []), hasCol df n = true) :
    normalize_sensecap_messages df = df := by
  rcases sensecap_cases df with ⟨he, _⟩ | ⟨hpay, he⟩
  · exact he
  · rw [he]
    have hfilter : (metricNamesOf ((getCol df "payload_json").getD [])).filter
        (fun n => !(hasCol df n)) = [] := by
      rw [List.filter_eq_nil]
      intro n hn
      rw [h hpay n hn]
      simp
    unfold sensecapNew
    rw [hfilter, List.map_nil, List.append_nil]

/-- The coercion pass never adds or removes a column. -/
lemma hasCol_coerceColIn (df : Table) (c x : String) :
    hasCol (coerceColIn df c) x = hasCol df x := by
  unfold coerceColIn
  by_cases h : hasCol df c = true
  · rw [if_pos h, hasCol_setCol]
    by_cases hx : x = c
    · subst hx
      rw [h]
      simp
    · have hxc : (x == c) = false := by
        simp only [beq_eq_false_iff_ne, ne_eq]
        exact hx
      rw [hxc, Bool.or_false]
  · rw [if_neg h]

/-- The coercion pass leaves every other column unchanged. -/
lemma getCol_coerceColIn_other (df : Table) (c x : String) (h : x ≠ c) :
    getCol (coerceColIn df c) x = getCol df x := by
  unfold coerceColIn
  by_cases h1 : hasCol df c = true
  · rw [if_pos h1]
    exact getCol_setCol_other h
  · rw [if_neg h1]

/-- The coercion pass keeps the table stable. -/
lemma coerceColIn_PStable {df : Table} (c : String) (hp : PStable df) :
    PStable (coerceColIn df c) := by
  unfold coerceColIn
  by_cases h1 : hasCol df c = true
  · rw [if_pos h1]
    exact PStable_setCol hp (colStable_coerced _)
  · rw [if_neg h1]
    exact hp

/-- The coerced column after the pass, when the column exists. -/
lemma coerceColIn_getCol_self {df : Table} {c : String} (h : hasCol df c = true) :
    getCol (coerceColIn df c) c = some (((getCol df c).getD []).map coerceCell) := by
  unfold coerceColIn
  rw [if_pos h]
  exact getCol_setCol_self

/-- A coercion pass over an already-coerced column does nothing. -/
lemma coerceColIn_id {df : Table} {c : String}
    (h : hasCol df c = true →
      ∃ l, getCol df c = some l ∧ ∀ x ∈ l, coerceCell x = x) :
    coerceColIn df c = df := by
  unfold coerceColIn
  by_cases h1 : hasCol df c = true
  · rw [if_pos h1]
    rcases h h1 with ⟨l, hl, hfix⟩
    rw [hl]
    show setCol df c (l.map coerceCell) = df
    rw [list_map_id hfix]
    exact setCol_self hl
  · rw [if_neg h1]

/-- The generic numeric pass on a stable table does nothing. -/
lemma genericCast_id {df : Table} (hp : PStable df) : genericCast df = df := by
  unfold genericCast
  apply list_map_id
  intro p hmem
  by_cases h1 : (p.1 == "device_id") = true
  · rw [if_pos h1]
  · rw [if_neg h1]
    by_cases h2 : p.2.any isObjCell = true
    · rw [if_pos h2]
      have h3 := hp p hmem (by simpa using h1) h2
      rw [h3]
    · rw [if_neg h2]

/-- The whole normalization pipeline keeps the table stable. -/
lemma normalize_all_PStable (df : Table) : PStable (normalize_all df) := by
  rw [normalize_all_eq]
  apply coerceColIn_PStable
  apply coerceColIn_PStable
  apply sensecap_PStable
  apply normalize_pslb_PStable
  apply normalize_dds75_PStable
  exact genericCast_stable df

/-- The pipeline creates only canonical columns. -/
lemma normalize_all_back {df : Table} {x : String}
    (h : hasCol (normalize_all df) x = true) : hasCol df x = true ∨ x ∈ allNews := by
  rw [normalize_all_eq, hasCol_coerceColIn, hasCol_coerceColIn] at h
  rcases sensecap_back h with h1 | h1
  · rcases normalize_pslb_back h1 with h2 | h2
    · rcases normalize_dds75_back h2 with h3 | h3
      · rw [hasCol_genericCast] at h3
        exact Or.inl h3
      · have hsub : ∀ y ∈ ddsNews, y ∈ allNews := by decide
        exact Or.inr (hsub x h3)
    · have hsub : ∀ y ∈ pslbNews, y ∈ allNews := by decide
      exact Or.inr (hsub x h2)
  · have hsub : ∀ y ∈ metricList, y ∈ allNews := by decide
    exact Or.inr (hsub x h1)

/-- Columns of the dds75 stage output survive to the pipeline output. -/
lemma normalize_all_has_of_nd {df : Table} {x : String}
    (h : hasCol (normalize_dds75 (genericCast df)) x = true) :
    hasCol (normalize_all df) x = true := by
  rw [normalize_all_eq, hasCol_coerceColIn, hasCol_coerceColIn]
  exact sensecap_mono (normalize_pslb_mono h)

/-- Columns of the pslb stage output survive to the pipeline output. -/
lemma normalize_all_has_of_np {df : Table} {x : String}
    (h : hasCol (normalize_pslb (normalize_dds75 (genericCast df))) x = true) :
    hasCol (normalize_all df) x = true := by
  rw [normalize_all_eq, hasCol_coerceColIn, hasCol_coerceColIn]
  exact sensecap_mono h

/-- **C4.** Normalization is non-destructive and idempotent: each vendor
stage (`normalize_dds75`, `normalize_pslb`, `normalize_sensecap_messages`)
only derives a canonical column when it is absent and leaves every
already-present column byte-for-byte unchanged, and `normalize_all`
applied twice equals `normalize_all` applied once, on every table. -/
theorem c4_normalize_idempotent :
    (∀ (df : Table) (c : String), hasCol df c = true →
        getCol (normalize_dds75 df) c = getCol df c)
    ∧ (∀ (df : Table) (c : String), hasCol df c = true →
        getCol (normalize_pslb df) c = getCol df c)
    ∧ (∀ (df : Table) (c : String), hasCol df c = true →
        getCol (normalize_sensecap_messages df) c = getCol df c)
    ∧ ∀ df : Table, normalize_all (normalize_all df) = normalize_all df := by
  refine ⟨fun df c h => normalize_dds75_getCol h,
    fun df c h => normalize_pslb_getCol h,
    fun df c h => sensecap_getCol h, ?_⟩
  intro df
  have hP : PStable (normalize_all df) := normalize_all_PStable df
  have hDDS : ∀ sd ∈ ddsAllPairs, hasCol (normalize_all df) sd.1 = true →
      hasCol (normalize_all df) sd.2 = true := by
    intro sd hsd h
    simp only [ddsAllPairs, List.mem_cons, List.not_mem_nil, or_false] at hsd
    rcases hsd with h1 | h1 | h1 | h1 | h1 | h1 | h1 | h1 <;> subst h1
    · rcases normalize_all_back h with h2 | h2
      · refine normalize_all_has_of_nd
          (@normalize_dds75_derive_battery (genericCast df) "Bat" (by decide) ?_)
        rw [hasCol_genericCast]
        exact h2
      · exact absurd h2 (by decide)
    · rcases normalize_all_back h with h2 | h2
      · refine normalize_all_has_of_nd
          (@normalize_dds75_derive_battery (genericCast df) "BAT" (by decide) ?_)
        rw [hasCol_genericCast]
        exact h2
      · exact absurd h2 (by decide)
    · rcases normalize_all_back h with h2 | h2
      · refine normalize_all_has_of_nd
          (@normalize_dds75_derive_battery (genericCast df) "Bat_V" (by decide) ?_)
        rw [hasCol_genericCast]
        exact h2
      · exact absurd h2 (by decide)
    · rcases normalize_all_back h with h2 | h2
      · refine normalize_all_has_of_nd
          (@normalize_dds75_derive_dist (genericCast df) "Distance_mm" (by decide) ?_)
        rw [hasCol_genericCast]
        exact h2
      · exact absurd h2 (by decide)
    · rcases normalize_all_back h with h2 | h2
      · refine normalize_all_has_of_nd
          (@normalize_dds75_derive_dist (genericCast df) "Distance" (by decide) ?_)
        rw [hasCol_genericCast]
        exact h2
      · exact absurd h2 (by decide)
    · rcases normalize_all_back h with h2 | h2
      · refine normalize_all_has_of_nd (normalize_dds75_derive_temp ?_)
        rw [hasCol_genericCast]
        exact h2
      · exact absurd h2 (by decide)
    · rcases normalize_all_back h with h2 | h2
      · refine normalize_all_has_of_nd
          (@normalize_dds75_derive_flag (genericCast df) "Interrupt_flag" "interrupt_flag"
            (by decide) ?_)
        rw [hasCol_genericCast]
        exact h2
      · exact absurd h2 (by decide)
    · rcases normalize_all_back h with h2 | h2
      · refine normalize_all_has_of_nd
          (@normalize_dds75_derive_flag (genericCast df) "Sensor_flag" "sensor_flag"
            (by decide) ?_)
        rw [hasCol_genericCast]
        exact h2
      · exact absurd h2 (by decide)
  have hPSLB : ∀ sd ∈ pslbAllPairs, hasCol (normalize_all df) sd.1 = true →
      hasCol (normalize_all df) sd.2 = true := by
    intro sd hsd h
    simp only [pslbAllPairs, pslbMapping, pslbLowerPairs, List.cons_append,
      List.nil_append, List.mem_cons, List.not_mem_nil, or_false] at hsd
    rcases hsd with h1 | h1 | h1 | h1 | h1 | h1 | h1 | h1 | h1 | h1 | h1 | h1 | h1 <;>
      subst h1
    · rcases normalize_all_back h with h2 | h2
      · refine normalize_all_has_of_nd
          (@normalize_dds75_derive_battery (genericCast df) "Bat_V" (by decide) ?_)
        rw [hasCol_genericCast]
        exact h2
      · exact absurd h2 (by decide)
    · rcases normalize_all_back h with h2 | h2
      · refine normalize_all_has_of_nd
          (@normalize_dds75_derive_battery (genericCast df) "BAT" (by decide) ?_)
        rw [hasCol_genericCast]
        exact h2
      · exact absurd h2 (by decide)
    · rcases normalize_all_back h with h2 | h2
      · refine normalize_all_has_of_np (@normalize_pslb_derive_map
          (normalize_dds75 (genericCast df)) "Water_deep_cm" "water_cm" (by decide) ?_)
        exact normalize_dds75_mono (by rw [hasCol_genericCast]; exact h2)
      · exact absurd h2 (by decide)
    · rcases normalize_all_back h with h2 | h2
      · refine normalize_all_has_of_np (@normalize_pslb_derive_map
          (normalize_dds75 (genericCast df)) "Water_pressure_kPa" "pressure_kpa"
          (by decide) ?_)
        exact normalize_dds75_mono (by rw [hasCol_genericCast]; exact h2)
      · exact absurd h2 (by decide)
    · rcases normalize_all_back h with h2 | h2
      · refine normalize_all_has_of_np (@normalize_pslb_derive_map
          (normalize_dds75 (genericCast df)) "Water_pressure_MPa" "pressure_mpa"
          (by decide) ?_)
        exact normalize_dds75_mono (by rw [hasCol_genericCast]; exact h2)
      · exact absurd h2 (by decide)
    · rcases normalize_all_back h with h2 | h2
      · refine normalize_all_has_of_np (@normalize_pslb_derive_map
          (normalize_dds75 (genericCast df)) "Differential_pressure_Pa" "diff_pressure_pa"
          (by decide) ?_)
        exact normalize_dds75_mono (by rw [hasCol_genericCast]; exact h2)
      · exact absurd h2 (by decide)
    · rcases normalize_all_back h with h2 | h2
      · refine normalize_all_has_of_np (@normalize_pslb_derive_map
          (normalize_dds75 (genericCast df)) "VDC_intput_V" "vdc_input_v" (by decide) ?_)
        exact normalize_dds75_mono (by rw [hasCol_genericCast]; exact h2)
      · exact absurd h2 (by decide)
    · rcases normalize_all_back h with h2 | h2
      · refine normalize_all_has_of_np (@normalize_pslb_derive_map
          (normalize_dds75 (genericCast df)) "IDC_intput_mA" "idc_input_ma" (by decide) ?_)
        exact normalize_dds75_mono (by rw [hasCol_genericCast]; exact h2)
      · exact absurd h2 (by decide)
    · rcases normalize_all_back h with h2 | h2
      · refine normalize_all_has_of_np (@normalize_pslb_derive_map
          (normalize_dds75 (genericCast df)) "Probe_mod" "probe_mode" (by decide) ?_)
        exact normalize_dds75_mono (by rw [hasCol_genericCast]; exact h2)
      · exact absurd h2 (by decide)
    · rcases normalize_all_back h with h2 | h2
      · refine normalize_all_has_of_np (@normalize_pslb_derive_low
          (normalize_dds75 (genericCast df)) "IN1_pin_level" "in1_pin_level"
          (by decide) ?_)
        exact normalize_dds75_mono (by rw [hasCol_genericCast]; exact h2)
      · exact absurd h2 (by decide)
    · rcases normalize_all_back h with h2 | h2
      · refine normalize_all_has_of_np (@normalize_pslb_derive_low
          (normalize_dds75 (genericCast df)) "IN2_pin_level" "in2_pin_level"
          (by decide) ?_)
        exact normalize_dds75_mono (by rw [hasCol_genericCast]; exact h2)
      · exact absurd h2 (by decide)
    · rcases normalize_all_back h with h2 | h2
      · refine normalize_all_has_of_np (@normalize_pslb_derive_low
          (normalize_dds75 (genericCast df)) "Exti_pin_level" "exti_pin_level"
          (by decide) ?_)
        exact normalize_dds75_mono (by rw [hasCol_genericCast]; exact h2)
      · exact absurd h2 (by decide)
    · rcases normalize_all_back h with h2 | h2
      · refine normalize_all_has_of_np (@normalize_pslb_derive_low
          (normalize_dds75 (genericCast df)) "Exti_status" "exti_status" (by decide) ?_)
        exact normalize_dds75_mono (by rw [hasCol_genericCast]; exact h2)
      · exact absurd h2 (by decide)
  have hSNS : hasCol (normalize_all df) "payload_json" = true →
      ∀ n ∈ metricNamesOf ((getCol (normalize_all df) "payload_json").getD []),
        hasCol (normalize_all df) n = true := by
    intro hpay n hn
    have hpay1 : hasCol (normalize_sensecap_messages (normalize_pslb (normalize_dds75
        (genericCast df)))) "payload_json" = true := by
      rw [normalize_all_eq, hasCol_coerceColIn, hasCol_coerceColIn] at hpay
      exact hpay
    have hg1 : getCol (normalize_all df) "payload_json" =
        getCol (normalize_sensecap_messages (normalize_pslb (normalize_dds75
          (genericCast df)))) "payload_json" := by
      rw [normalize_all_eq, getCol_coerceColIn_other _ _ _ (by decide),
        getCol_coerceColIn_other _ _ _ (by decide)]
    rcases sensecap_cases (normalize_pslb (normalize_dds75 (genericCast df))) with
      ⟨he, hguard⟩ | ⟨hp1, he⟩
    · rw [he] at hpay1 hg1
      rw [hg1] at hn
      rcases hguard with hg2 | hg2 | hg2
      · rw [tableEmpty_getCol_nil hg2 hpay1] at hn
        rw [show metricNamesOf [] = [] from rfl] at hn
        cases hn
      · rw [hg2] at hpay1
        cases hpay1
      · rw [hg2] at hn
        cases hn
    · rw [he] at hpay1 hg1
      rw [getCol_append_left hp1] at hg1
      rw [hg1] at hn
      rw [normalize_all_eq, hasCol_coerceColIn, hasCol_coerceColIn, he, hasCol_append]
      by_cases hx : hasCol (normalize_pslb (normalize_dds75 (genericCast df))) n = true
      · rw [hx]
        rfl
      · have hxf : hasCol (normalize_pslb (normalize_dds75 (genericCast df))) n = false :=
          Bool.eq_false_iff.2 hx
        have hnf : n ∈ (metricNamesOf ((getCol (normalize_pslb (normalize_dds75
            (genericCast df))) "payload_json").getD [])).filter
            (fun m => !(hasCol (normalize_pslb (normalize_dds75 (genericCast df))) m)) :=
          List.mem_filter.2 ⟨hn, by rw [hxf]; rfl⟩
        rw [hasCol_sensecapNew hnf, Bool.or_true]
  have hR : hasCol (normalize_all df) "rssi" = true →
      ∃ l, getCol (normalize_all df) "rssi" = some l ∧ ∀ x ∈ l, coerceCell x = x := by
    intro hr
    have hr1 : hasCol (normalize_sensecap_messages (normalize_pslb (normalize_dds75
        (genericCast df)))) "rssi" = true := by
      rw [normalize_all_eq, hasCol_coerceColIn, hasCol_coerceColIn] at hr
      exact hr
    have hg1 : getCol (normalize_all df) "rssi" =
        getCol (coerceColIn (normalize_sensecap_messages (normalize_pslb (normalize_dds75
          (genericCast df)))) "rssi") "rssi" := by
      rw [normalize_all_eq, getCol_coerceColIn_other _ _ _ (by decide)]
    rw [coerceColIn_getCol_self hr1] at hg1
    refine ⟨_, hg1, ?_⟩
    intro x hx
    rcases List.mem_map.1 hx with ⟨y, _, rfl⟩
    exact coerceCell_idem y
  have hS : hasCol (normalize_all df) "snr" = true →
      ∃ l, getCol (normalize_all df) "snr" = some l ∧ ∀ x ∈ l, coerceCell x = x := by
    intro hs
    have hs1 : hasCol (coerceColIn (normalize_sensecap_messages (normalize_pslb
        (normalize_dds75 (genericCast df)))) "rssi") "snr" = true := by
      rw [normalize_all_eq, hasCol_coerceColIn] at hs
      exact hs
    have hg1 : getCol (normalize_all df) "snr" =
        some (((getCol (coerceColIn (normalize_sensecap_messages (normalize_pslb
          (normalize_dds75 (genericCast df)))) "rssi") "snr").getD []).map coerceCell) := by
      rw [normalize_all_eq]
      exact coerceColIn_getCol_self hs1
    refine ⟨_, hg1, ?_⟩
    intro x hx
    rcases List.mem_map.1 hx with ⟨y, _, rfl⟩
    exact coerceCell_idem y
  rw [normalize_all_eq (normalize_all df)]
  rw [genericCast_id hP, normalize_dds75_id hDDS, normalize_pslb_id hPSLB,
    sensecap_id hSNS, coerceColIn_id hR, coerceColIn_id hS]

/-- Witness for `c4_normalize_idempotent`: all four parts applied at a
table that already carries a populated `battery` column. -/
theorem c4_normalize_idempotent_witness :
    hasCol [("battery", [Cell.num 5])] "battery" = true
    ∧ getCol (normalize_dds75 [("battery", [Cell.num 5])]) "battery"
        = getCol [("battery", [Cell.num 5])] "battery"
    ∧ getCol (normalize_pslb [("battery", [Cell.num 5])]) "battery"
        = getCol [("battery", [Cell.num 5])] "battery"
    ∧ getCol (normalize_sensecap_messages [("battery", [Cell.num 5])]) "battery"
        = getCol [("battery", [Cell.num 5])] "battery"
    ∧ normalize_all (normalize_all [("battery", [Cell.num 5])])
        = normalize_all [("battery", [Cell.num 5])] := by
  refine ⟨by decide, c4_normalize_idempotent.1 _ "battery" (by decide),
    c4_normalize_idempotent.2.1 _ "battery" (by decide),
    c4_normalize_idempotent.2.2.1 _ "battery" (by decide),
    c4_normalize_idempotent.2.2.2 _⟩

end TTNPull
